import Mathlib

/-!
Verification of the DocAI platform core against its specification.

The definitions below are shallow embeddings of the Python sources of the
repository (app/retrieval/hybrid_search.py, app/retrieval/router.py,
app/ingestion/chunker.py, app/ingestion/pipeline.py,
app/versioning/diff_engine.py).  External collaborators (the tiktoken
tokenizer, the Qdrant / Elasticsearch / PostgreSQL clients, the LLM) are
modelled as explicit parameters; machine floats of the scoring pipeline are
modelled as rationals; fallible calls are modelled with Except.
-/

namespace DocAI

/-- Tuning options of config/settings.py with their declared defaults
(chunk sizes in tokens, retrieval knobs). -/
structure TuningSettings where
  chunk_target_size : Nat := 500
  chunk_max_size : Nat := 800
  chunk_overlap : Nat := 50
  retrieval_top_k_vector : Nat := 20
  retrieval_top_k_bm25 : Nat := 20
  retrieval_rrf_k : ℚ := 60
  retrieval_final_top_k : Nat := 5
  context_window_chunks : Nat := 1
deriving Repr, DecidableEq

/-- The settings object with every field at its declared default. -/
def defaultSettings : TuningSettings := {}

/-- app/core/models.py RetrievedChunk: a retrieved chunk together with its
retrieval score (float in the source, modelled as a rational). -/
structure RetrievedChunk where
  chunk_id : String
  doc_id : String := ""
  doc_title : String := ""
  section_path : String := ""
  page_numbers : List Nat := []
  chunk_index : Nat := 0
  chunk_type : String := "text"
  content : String := ""
  score : ℚ := 0
deriving Repr, DecidableEq

/-! ### Stable descending sort

Python list.sort / sorted with reverse=True is a stable sort; it is modelled
by insertion sort that keeps an element after all earlier elements whose key
is at least as large. -/

/-- Insert x into a descending-sorted list, after all entries whose key is
greater or equal (stability of Python sorted). -/
def insertDesc (key : α → ℚ) (x : α) : List α → List α
  | [] => [x]
  | y :: ys => if key y < key x then x :: y :: ys else y :: insertDesc key x ys

/-- Stable sort, descending by key, as Python sorted(key=key, reverse=True). -/
def sortDescBy (key : α → ℚ) (l : List α) : List α :=
  l.foldl (fun acc x => insertDesc key x acc) []

/-! ### RRF fusion (app/retrieval/hybrid_search.py, _rrf_fusion)

The Python dicts rrf_scores (a defaultdict(float)) and chunk_map are modelled
as association lists kept in key-insertion order, which is the iteration
order of a Python dict. -/

/-- defaultdict(float) update m[key] += d: add to an existing entry in place,
or append a fresh entry (implicit 0 default) at the end. -/
def bump : List (String × ℚ) → String → ℚ → List (String × ℚ)
  | [], key, d => [(key, d)]
  | (k0, v) :: rest, key, d =>
    if k0 = key then (k0, v + d) :: rest else (k0, v) :: bump rest key d

/-- dict assignment m[key] = c: overwrite in place, or append. -/
def mapSet : List (String × RetrievedChunk) → String → RetrievedChunk →
    List (String × RetrievedChunk)
  | [], key, c => [(key, c)]
  | (k0, v) :: rest, key, c =>
    if k0 = key then (k0, c) :: rest else (k0, v) :: mapSet rest key c

/-- Conditional insert: if chunk.chunk_id not in chunk_map (bm25 loop). -/
def mapSetIfAbsent (m : List (String × RetrievedChunk)) (key : String)
    (c : RetrievedChunk) : List (String × RetrievedChunk) :=
  if (m.find? (fun kv => kv.1 = key)).isSome then m else m ++ [(key, c)]

/-- Lookup with default (reading the defaultdict / dict). -/
def dictGetD (m : List (String × ℚ)) (key : String) (d : ℚ) : ℚ :=
  match m.find? (fun kv => kv.1 = key) with
  | some kv => kv.2
  | none => d

/-- chunk_map lookup. -/
def mapFind (m : List (String × RetrievedChunk)) (key : String) :
    Option RetrievedChunk :=
  (m.find? (fun kv => kv.1 = key)).map (fun kv => kv.2)

/-- One enumerate(results, start=rank) loop of _rrf_fusion: add 1/(k+rank) to
each chunk's RRF score and record the chunk in chunk_map (the vector loop
overwrites, the bm25 loop only inserts when absent). -/
def rrfAccumulate (k : ℚ) (overwrite : Bool) :
    List (String × ℚ) × List (String × RetrievedChunk) → List RetrievedChunk →
    Nat → List (String × ℚ) × List (String × RetrievedChunk)
  | (sc, cm), [], _ => (sc, cm)
  | (sc, cm), c :: cs, r =>
    let sc' := bump sc c.chunk_id (1 / (k + r))
    let cm' := if overwrite then mapSet cm c.chunk_id c
               else mapSetIfAbsent cm c.chunk_id c
    rrfAccumulate k overwrite (sc', cm') cs (r + 1)

/-- _rrf_fusion(vector_results, bm25_results, k=None).  The `k or
settings.retrieval_rrf_k` idiom treats k=0 (falsy) like None. -/
def rrfFusion (st : TuningSettings) (vector_results bm25_results : List RetrievedChunk)
    (kOpt : Option ℚ) : List RetrievedChunk :=
  let k := match kOpt with
    | none => st.retrieval_rrf_k
    | some x => if x = 0 then st.retrieval_rrf_k else x
  let acc1 := rrfAccumulate k true ([], []) vector_results 1
  let acc2 := rrfAccumulate k false acc1 bm25_results 1
  let sortedIds := sortDescBy (fun cid => dictGetD acc2.1 cid 0) (acc2.1.map (fun kv => kv.1))
  sortedIds.filterMap (fun cid =>
    (mapFind acc2.2 cid).map (fun c => { c with score := dictGetD acc2.1 cid 0 }))

/-! Specification-side notions for the RRF claim. -/

/-- Spec-side reciprocal-rank contribution of one result list to an
identifier, counting from rank r: the sum of 1/(k + rank) over the positions
where the identifier occurs. -/
def rrfContribAux (k : ℚ) : List RetrievedChunk → Nat → String → ℚ
  | [], _, _ => 0
  | c :: cs, r, cid =>
    (if c.chunk_id = cid then 1 / (k + r) else 0) + rrfContribAux k cs (r + 1) cid

/-- Spec-side contribution with 1-based ranks. -/
def rrfContrib (k : ℚ) (l : List RetrievedChunk) (cid : String) : ℚ :=
  rrfContribAux k l 1 cid

/-- Spec-side expected output of fusing a list with itself: the same chunks
in the same order, the chunk at 1-based rank r carrying score 2 * (1/(k+r)). -/
def rrfDoubled (k : ℚ) : List RetrievedChunk → Nat → List RetrievedChunk
  | [], _ => []
  | c :: cs, r => ({ c with score := 2 * (1 / (k + r)) }) :: rrfDoubled k cs (r + 1)

/-! ### Hybrid search (app/retrieval/hybrid_search.py)

The Qdrant and Elasticsearch clients are external collaborators: each backend
call is modelled as its outcome, an Except value (error = the client raised).
_vector_search performs its search with no try/except, _bm25_search wraps the
es.search call in try/except and returns [] on failure. -/

/-- A Qdrant search hit: point id, score and the payload fields that
_vector_search reads back (payload.get defaults already applied). -/
structure QdrantPoint where
  id : String
  doc_id : String := ""
  doc_title : String := ""
  section_path : String := ""
  page_numbers : List Nat := []
  chunk_index : Nat := 0
  chunk_type : String := "text"
  content : String := ""
  score : ℚ := 0
deriving Repr, DecidableEq

/-- An Elasticsearch hit: _id, _score and the _source fields read back. -/
structure EsHit where
  id : String
  doc_id : String := ""
  doc_title : String := ""
  section_path : String := ""
  page_numbers : List Nat := []
  chunk_index : Nat := 0
  chunk_type : String := "text"
  content : String := ""
  score : ℚ := 0
deriving Repr, DecidableEq

/-- _vector_search result assembly: str(point.id) and the payload fields. -/
def pointToChunk (p : QdrantPoint) : RetrievedChunk :=
  { chunk_id := p.id, doc_id := p.doc_id, doc_title := p.doc_title,
    section_path := p.section_path, page_numbers := p.page_numbers,
    chunk_index := p.chunk_index, chunk_type := p.chunk_type,
    content := p.content, score := p.score }

/-- _bm25_search result assembly: hit _id and the _source fields. -/
def hitToChunk (h : EsHit) : RetrievedChunk :=
  { chunk_id := h.id, doc_id := h.doc_id, doc_title := h.doc_title,
    section_path := h.section_path, page_numbers := h.page_numbers,
    chunk_index := h.chunk_index, chunk_type := h.chunk_type,
    content := h.content, score := h.score }

/-- _vector_search: no exception handling, a failing qdrant.search call
propagates to the caller. -/
def vectorSearchRun (backend : Except String (List QdrantPoint)) :
    Except String (List RetrievedChunk) :=
  match backend with
  | .error e => .error e
  | .ok pts => .ok (pts.map pointToChunk)

/-- _bm25_search: the es.search call sits in try/except; on failure the
function logs and returns the empty list. -/
def bm25SearchRun (backend : Except String (List EsHit)) : List RetrievedChunk :=
  match backend with
  | .error _ => []
  | .ok hits => hits.map hitToChunk

/-- _rerank: score every candidate with the cross-encoder (modelled by
rerankScore applied to the query and the chunk content), then stable-sort
descending by the new score.  Empty candidate lists return []. -/
def rerankRun (query : String) (rerankScore : String → String → ℚ)
    (candidates : List RetrievedChunk) : List RetrievedChunk :=
  if candidates = [] then []
  else sortDescBy (fun c => c.score)
    (candidates.map (fun c => { c with score := rerankScore query c.content }))

/-- _expand_context_window: for each chunk fetch neighbour contents from the
lexical store (modelled by ctxFetch); when more than one hit returns, replace
the content by the joined neighbour contents; a failing fetch keeps the
original chunk. -/
def expandContextWindow (ctxFetch : RetrievedChunk → Except String (List String))
    (chunks : List RetrievedChunk) : List RetrievedChunk :=
  chunks.map (fun c =>
    match ctxFetch c with
    | .error _ => c
    | .ok contents =>
      if 1 < contents.length then
        { c with content := String.intercalate "\n\n" contents }
      else c)

/-- hybrid_search(query, doc_id, top_k, use_reranker): vector search, bm25
search, RRF fusion, optional rerank over the top 3*top_k fused results,
optional context-window expansion.  The `top_k or settings.retrieval_final_top_k`
idiom treats top_k=0 (falsy) like None. -/
def hybridSearch (st : TuningSettings) (query : String)
    (vecBackend : Except String (List QdrantPoint))
    (esBackend : Except String (List EsHit))
    (rerankScore : String → String → ℚ)
    (ctxFetch : RetrievedChunk → Except String (List String))
    (topK : Option Nat) (useReranker : Bool) :
    Except String (List RetrievedChunk) :=
  let top_k := match topK with
    | none => st.retrieval_final_top_k
    | some t => if t = 0 then st.retrieval_final_top_k else t
  match vectorSearchRun vecBackend with
  | .error e => .error e
  | .ok vector_results =>
    let bm25_results := bm25SearchRun esBackend
    let fused_results := rrfFusion st vector_results bm25_results none
    let final_results :=
      if useReranker ∧ fused_results ≠ [] then
        (rerankRun query rerankScore (fused_results.take (top_k * 3))).take top_k
      else fused_results.take top_k
    let final_results :=
      if 0 < st.context_window_chunks then expandContextWindow ctxFetch final_results
      else final_results
    .ok final_results

/-! ### Call compatibility of hybrid_search with its callers

hybrid_search has no **kwargs catch-all, so a keyword call is accepted
exactly when every keyword names a declared parameter; otherwise Python
raises TypeError at the call. -/

/-- The parameter names of hybrid_search as defined in
app/retrieval/hybrid_search.py (query, doc_id, top_k, use_reranker). -/
def hybridSearchParams : List String := ["query", "doc_id", "top_k", "use_reranker"]

/-- Whether a keyword-argument call is accepted by a Python function without
a **kwargs catch-all: every keyword must name a declared parameter. -/
def pyAcceptsKwargs (paramNames kwargs : List String) : Bool :=
  kwargs.all (fun kw => paramNames.contains kw)

/-- The keywords of the hybrid_search call in tool_search_documents
(app/agent/tools.py, line 134). -/
def toolSearchDocumentsCallKwargs : List String :=
  ["query", "metadata_filters", "top_k", "version_mode", "accessible_doc_ids"]

/-- The keywords of the hybrid_search call in _run_retrieval
(app/api/query.py, line 51). -/
def runRetrievalCallKwargs : List String :=
  ["query", "metadata_filters", "top_k", "version_mode", "accessible_doc_ids"]

/-! ### Filter construction of the two searches -/

/-- A Qdrant FieldCondition key=key match=MatchValue(value=...) /
an Elasticsearch term clause, with a string or boolean value. -/
inductive MatchCondition where
  | fieldStr (key : String) (value : String)
  | fieldBool (key : String) (value : Bool)
deriving Repr, DecidableEq

/-- The must_conditions list built by _vector_search: an optional doc_id
equality followed unconditionally by is_latest = true. -/
def vectorMustConditions (doc_id : Option String) : List MatchCondition :=
  (match doc_id with
   | some d => [MatchCondition.fieldStr "doc_id" d]
   | none => []) ++ [MatchCondition.fieldBool "is_latest" true]

/-- The filter clauses built by _bm25_search: term is_latest = true first,
then an optional doc_id term. -/
def bm25FilterClauses (doc_id : Option String) : List MatchCondition :=
  [MatchCondition.fieldBool "is_latest" true] ++
  (match doc_id with
   | some d => [MatchCondition.fieldStr "doc_id" d]
   | none => [])

/-! ### Query router (app/retrieval/router.py, route_query)

The LLM JSON response is modelled field by field: each field can be absent
from the JSON object, present as null, or present with a typed value; the
whole call can fail (Except.error).  Everything inside the try block runs
under one except, so a JSON shape that crashes the body (null where the code
needs a dict, or a pydantic validation failure when QueryPlan is built) also
lands in the fallback branch. -/

/-- A JSON field of the LLM response: absent from the object, null, or a
typed value. -/
inductive JField (α : Type) where
  | absent
  | null
  | val (a : α)
deriving Repr, DecidableEq

/-- A JSON scalar value inside metadata_filters. -/
inductive JVal where
  | str (s : String)
  | boolean (b : Bool)
  | jnull
deriving Repr, DecidableEq

/-- The shape of the routing LLM's JSON response. -/
structure RouterLlmJson where
  query_type : JField String := .absent
  search_queries : JField (List String) := .absent
  metadata_filters : JField (List (String × JVal)) := .absent
  needs_multi_doc : JField Bool := .absent
  estimated_scope : JField String := .absent
  route : JField String := .absent
deriving Repr, DecidableEq

/-- QueryPlan of app/retrieval/router.py. -/
structure QueryPlan where
  query_type : String
  search_queries : List String
  metadata_filters : List (String × JVal)
  needs_multi_doc : Bool
  estimated_scope : String
  route : String
deriving Repr, DecidableEq

/-- Python dict.update on an insertion-ordered association list: existing
keys are overwritten in place, new keys appended. -/
def dictUpdate (base upd : List (String × JVal)) : List (String × JVal) :=
  upd.foldl (fun acc kv =>
    if (acc.find? (fun kv0 => kv0.1 = kv.1)).isSome then
      acc.map (fun kv0 => if kv0.1 = kv.1 then kv else kv0)
    else acc ++ [kv]) base

/-- res.get(key, default) for a string field: absent gives the default,
null gives Python None (Option.none), a value gives itself. -/
def jGetStr (f : JField String) (d : String) : Option String :=
  match f with
  | .absent => some d
  | .null => none
  | .val s => some s

/-- The body of route_query's try block applied to a successfully parsed
LLM response.  Returns none when the body raises (metadata_filters null
makes .update raise AttributeError; a null query_type or estimated_scope
fails QueryPlan validation), sending control to the except fallback. -/
def routeQueryBody (res : RouterLlmJson) (question : String)
    (user_filters : List (String × JVal)) : Option QueryPlan :=
  match res.metadata_filters with
  | .null => none
  | mfField =>
    let mfBase := match mfField with
      | .val m => m
      | _ => []
    let metadata_filters := (dictUpdate mfBase user_filters).filter
      (fun kv => kv.2 ≠ JVal.jnull)
    let routeRaw := jGetStr res.route "simple_rag"
    let queryTypeRaw := jGetStr res.query_type "factual"
    let routeInSet : Bool := match routeRaw with
      | some r => r == "simple_rag" || r == "enhanced_rag" || r == "agent"
      | none => false
    let needsMulti : Bool := match res.needs_multi_doc with
      | .val b => b
      | _ => false
    let route : String :=
      if routeInSet then routeRaw.getD "simple_rag"
      else
        if queryTypeRaw = some "complex_analysis" ∨ queryTypeRaw = some "version_diff" then
          "agent"
        else if queryTypeRaw = some "summary" ∧ needsMulti = true then "enhanced_rag"
        else if queryTypeRaw = some "comparison" then "agent"
        else "simple_rag"
    let search_queries := match res.search_queries with
      | .val (q :: qs) => q :: qs
      | _ => [question]
    match queryTypeRaw, jGetStr res.estimated_scope "narrow" with
    | some qt, some scope =>
      some { query_type := qt, search_queries := search_queries,
             metadata_filters := metadata_filters,
             needs_multi_doc := needsMulti,
             estimated_scope := scope, route := route }
    | _, _ => none

/-- The except-branch fallback plan of route_query. -/
def routerFallbackPlan (question : String)
    (user_filters : List (String × JVal)) : QueryPlan :=
  { query_type := "factual", search_queries := [question],
    metadata_filters := user_filters, needs_multi_doc := false,
    estimated_scope := "narrow", route := "simple_rag" }

/-- route_query(question, user_filters): run the LLM classification and build
the plan; any failure falls back to simple_rag with the original question. -/
def routeQuery (llmResult : Except String RouterLlmJson) (question : String)
    (user_filters : List (String × JVal)) : QueryPlan :=
  match llmResult with
  | .error _ => routerFallbackPlan question user_filters
  | .ok res =>
    match routeQueryBody res question user_filters with
    | some plan => plan
    | none => routerFallbackPlan question user_filters

/-! ### The documents table (app/ingestion/pipeline.py)

A row of the PostgreSQL documents table, with the columns the pipeline
reads and writes.  The table is modelled as a list of rows in physical
order; doc_id is the primary key.  Timestamps (NOW()) are passed in as a
natural number. -/

/-- A row of the documents table. -/
structure DocRow where
  doc_id : String
  title : String := ""
  original_filename : String := ""
  file_hash : String := ""
  doc_type : Option String := none
  tags : List String := []
  processing_status : String := "pending"
  processing_error : Option String := none
  doc_summary : String := ""
  version_number : String := "v1.0"
  version_status : String := "active"
  parent_version_id : Option String := none
  is_latest : Bool := true
  superseded_at : Option Nat := none
  chunk_count : Nat := 0
deriving Repr, DecidableEq

/-- _check_file_hash: SELECT doc_id, title FROM documents WHERE file_hash =
hash AND processing_status != 'error' LIMIT 1 — the first matching row. -/
def checkFileHash (db : List DocRow) (file_hash : String) : Option DocRow :=
  db.find? (fun r => r.file_hash == file_hash && r.processing_status != "error")

/-- The duplicate-content error message raised by process_document, carrying
the existing document's identifier and title. -/
def duplicateMessage (existing : DocRow) : String :=
  "文件内容完全相同的文档已存在 (doc_id=" ++ existing.doc_id ++
  ", title=" ++ existing.title ++ ")"

/-- _register_document: INSERT a fresh row with status pending; the unnamed
columns keep their schema defaults. -/
def registerDocument (db : List DocRow) (doc_id title original_filename
    file_hash : String) (doc_type : Option String) (tags : List String) :
    List DocRow :=
  db ++ [{ doc_id := doc_id, title := title,
           original_filename := original_filename, file_hash := file_hash,
           doc_type := doc_type, tags := tags,
           processing_status := "pending" }]

/-- _update_status with an error message: UPDATE documents SET
processing_status, processing_error WHERE doc_id = ... (a no-op when no row
has that id). -/
def updateStatusError (db : List DocRow) (doc_id msg : String) : List DocRow :=
  db.map (fun r =>
    if r.doc_id = doc_id then
      { r with processing_status := "error", processing_error := some msg }
    else r)

/-- Steps 0a and 0b of process_document together with the surrounding
exception handler: compute the hash check; on a duplicate the ValueError is
caught by the top-level except, which sets status error on the (not yet
registered) doc_id and re-raises; otherwise the document is registered with
status pending.  The stages after registration are outside this model.
The error carries the message and the resulting table. -/
def processDocumentDedup (db : List DocRow) (doc_id title original_filename
    file_hash : String) (doc_type : Option String) (tags : List String) :
    Except (String × List DocRow) (List DocRow) :=
  match checkFileHash db file_hash with
  | some existing =>
    let msg := duplicateMessage existing
    .error (msg, updateStatusError db doc_id msg)
  | none =>
    .ok (registerDocument db doc_id title original_filename file_hash doc_type tags)

/-! ### Version linking (app/ingestion/pipeline.py) -/

/-- Python str.split at a single separator character, kept structural. -/
def splitCharGo (sep : Char) (cur : List Char) : List Char → List (List Char)
  | [] => [cur.reverse]
  | c :: cs => if c = sep then cur.reverse :: splitCharGo sep [] cs
               else splitCharGo sep (c :: cur) cs

/-- s.split(sep) for a one-character separator. -/
def splitOnChar (sep : Char) (s : String) : List String :=
  (splitCharGo sep [] s.data).map String.mk

/-- Python str.lstrip("v"): drop every leading 'v'. -/
def lstripV (s : String) : String :=
  String.mk (s.data.dropWhile (fun c => c = 'v'))

/-- Decimal digits to a natural number. -/
def digitsToNat (ds : List Char) : Nat :=
  ds.foldl (fun n c => n * 10 + (c.toNat - '0'.toNat)) 0

/-- Python int(s) on the first dot-component: an optional sign followed by
at least one digit; anything else raises ValueError (modelled as none). -/
def pyParseInt (s : String) : Option Int :=
  match s.data with
  | [] => none
  | '-' :: ds => if ds ≠ [] ∧ ds.all Char.isDigit then
      some (-(Int.ofNat (digitsToNat ds))) else none
  | '+' :: ds => if ds ≠ [] ∧ ds.all Char.isDigit then
      some (Int.ofNat (digitsToNat ds)) else none
  | ds => if ds.all Char.isDigit then some (Int.ofNat (digitsToNat ds))
      else none

/-- _increment_version: v1.0 becomes v2.0 and so on; unparsable input
falls back to v2.0. -/
def incrementVersion (version : String) : String :=
  let v := lstripV version
  match (splitOnChar '.' v).head? >>= pyParseInt with
  | some major => "v" ++ toString (major + 1) ++ ".0"
  | none => "v2.0"

/-- _decrement_version: v2.0 becomes v1.0 and so on, never below v1.0;
unparsable input falls back to v1.0. -/
def decrementVersion (version : String) : String :=
  let v := lstripV version
  match (splitOnChar '.' v).head? >>= pyParseInt with
  | some major => "v" ++ toString (max (major - 1) 1) ++ ".0"
  | none => "v1.0"

/-- _link_as_older_version(uploaded_doc_id, existing_doc_id,
detected_version): read the existing document's version and parent, compute
the uploaded document's version (the detected string when truthy, else the
decremented existing version), then two UPDATE statements — the uploaded row
gets the existing row's previous parent, the computed version,
is_latest = FALSE, version_status superseded and superseded_at = NOW();
the existing row's parent_version_id is pointed at the uploaded document. -/
def linkAsOlderVersion (db : List DocRow) (uploaded_doc_id existing_doc_id : String)
    (detected_version : Option String) (now : Nat) : List DocRow :=
  let existingRow := db.find? (fun r => r.doc_id == existing_doc_id)
  let existing_version := match existingRow with
    | some r => r.version_number
    | none => "v1.0"
  let existing_parent_id := match existingRow with
    | some r => r.parent_version_id
    | none => none
  let older_version := match detected_version with
    | some s => if s ≠ "" then s else decrementVersion existing_version
    | none => decrementVersion existing_version
  let db1 := db.map (fun r =>
    if r.doc_id = uploaded_doc_id then
      { r with parent_version_id := existing_parent_id,
               version_number := older_version,
               is_latest := false,
               version_status := "superseded",
               superseded_at := some now }
    else r)
  db1.map (fun r =>
    if r.doc_id = existing_doc_id then
      { r with parent_version_id := some uploaded_doc_id }
    else r)

/-! ### Chunker (app/ingestion/chunker.py)

The tiktoken tokenizer is an external collaborator; it enters as two
parameters: ctk (count_tokens) and tokTail (the encode / decode suffix
truncation used by _extract_overlap). -/

/-- Python regex whitespace for this codebase's ASCII texts:
space, tab, newline, carriage return, vertical tab, form feed. -/
def isPySpace (c : Char) : Bool :=
  c = ' ' || c = '\t' || c = '\n' || c = '\r' ||
  c = Char.ofNat 11 || c = Char.ofNat 12

/-- Python str.strip(): remove leading and trailing whitespace. -/
def pyStrip (s : String) : String :=
  String.mk (((s.data.dropWhile isPySpace).reverse.dropWhile isPySpace).reverse)

/-- re.split of the separator regex newline-whitespace-newline: a separator
match starts at a newline and extends through the following whitespace run
up to the last newline of that run, provided the run holds a second newline
(leftmost-greedy semantics of the pattern). -/
def splitDnlGo (acc : List Char) (cs : List Char) : List (List Char) :=
  match cs with
  | [] => [acc.reverse]
  | c :: rest =>
    if c = '\n' then
      let ws := (c :: rest).takeWhile isPySpace
      if 2 ≤ ws.count '\n' then
        let trail := ws.reverse.takeWhile (fun a => a ≠ '\n')
        let sepLen := ws.length - trail.length
        acc.reverse :: splitDnlGo [] (rest.drop (sepLen - 1))
      else splitDnlGo (c :: acc) rest
    else splitDnlGo (c :: acc) rest
termination_by cs.length
decreasing_by
  · simp [List.length_drop]
    omega
  · simp
  · simp

/-- The double-newline split of _split_into_paragraphs. -/
def splitDoubleNewline (s : String) : List String :=
  (splitDnlGo [] s.data).map String.mk

/-- part.split("\n"). -/
def splitLines (s : String) : List String := splitOnChar '\n' s

/-- The inner single-newline loop of _split_into_paragraphs: append the next
line to the current group; once the joined group exceeds chunk_target_size
tokens, flush the group without its last line (or the single over-long
line alone), and continue from that line. -/
def lineSplitLoop (ctk : String → Nat) (target : Nat)
    (paragraphs group : List String) : List String → List String
  | [] =>
    if group ≠ [] then paragraphs ++ [String.intercalate "\n" group]
    else paragraphs
  | l :: ls =>
    let g := group ++ [l]
    if target < ctk (String.intercalate "\n" g) then
      if 1 < g.length then
        lineSplitLoop ctk target
          (paragraphs ++ [String.intercalate "\n" g.dropLast]) [l] ls
      else lineSplitLoop ctk target (paragraphs ++ [l]) [] ls
    else lineSplitLoop ctk target paragraphs g ls

/-- _split_into_paragraphs(text): split at double newlines, strip each part,
skip the empty ones; a part of more than settings.chunk_max_size tokens is
further split at single newlines by the greedy line loop. -/
def splitIntoParagraphs (ctk : String → Nat) (st : TuningSettings)
    (text : String) : List String :=
  (splitDoubleNewline text).foldl (fun paragraphs rawPart =>
    let part := pyStrip rawPart
    if part = "" then paragraphs
    else if st.chunk_max_size < ctk part then
      lineSplitLoop ctk st.chunk_target_size paragraphs [] (splitLines part)
    else paragraphs ++ [part]) []

/-- The reversed-parts loop of _extract_overlap: walk the parts from the
end, prepending them, until adding the next one would push the token total
past the target while something was already taken. -/
def overlapTake (ctk : String → Nat) (target : Nat) :
    List String → List String → Nat → List String
  | [], acc, _ => acc
  | p :: ps, acc, total =>
    let pt := ctk p
    if target < total + pt ∧ acc ≠ [] then acc
    else overlapTake ctk target ps (p :: acc) (total + pt)

/-- _extract_overlap(parts, target_overlap_tokens): a suffix of whole parts
whose token total reaches the target, re-joined with blank lines; when that
is still more than twice the target, fall back to the raw token suffix
(tokTail, the encoder decode of the last target tokens). -/
def extractOverlap (ctk : String → Nat) (tokTail : String → Nat → String)
    (parts : List String) (target : Nat) : String :=
  if parts = [] ∨ target = 0 then ""
  else
    let overlap_parts := overlapTake ctk target parts.reverse [] 0
    let result := String.intercalate "\n\n" overlap_parts
    if target * 2 < ctk result then tokTail result target else result

/-- Chunk type tags of app/core/models.py. -/
inductive IngestChunkType where
  | text
  | table
  | imageDescription
  | sectionSummary
  | docSummary
deriving Repr, DecidableEq

/-- app/core/models.py Chunk with the pydantic field defaults; note in
particular chunk_index defaults to 0.  The uuid4 chunk_id and the creation
timestamp are not modelled (no claim reads them). -/
structure Chunk where
  doc_id : String := ""
  doc_title : String := ""
  section_path : String := ""
  page_numbers : List Nat := []
  chunk_index : Nat := 0
  chunk_type : IngestChunkType := .text
  content : String := ""
  token_count : Nat := 0
deriving Repr, DecidableEq

/-- The paragraph-merging loop of _merge_paragraphs_into_chunks, carried
state: emitted chunks, current parts, current token total, next chunk index,
pending overlap text. -/
def mergeLoop (ctk : String → Nat) (tokTail : String → Nat → String)
    (doc_id doc_title section_path : String) (page_numbers : List Nat)
    (max_size overlap start_index : Nat) :
    List String → List Chunk → List String → Nat → Nat → String → List Chunk
  | [], chunks, current_parts, _, chunk_idx, overlap_text =>
    if current_parts ≠ [] then
      let content0 := String.intercalate "\n\n" current_parts
      let content := if overlap_text ≠ "" ∧ start_index < chunk_idx then
          overlap_text ++ "\n\n" ++ content0 else content0
      chunks ++ [{ doc_id := doc_id, doc_title := doc_title,
                   section_path := section_path, page_numbers := page_numbers,
                   chunk_index := chunk_idx, chunk_type := .text,
                   content := content, token_count := ctk content }]
    else chunks
  | para :: ps, chunks, current_parts, current_tokens, chunk_idx, overlap_text =>
    let para_tokens := ctk para
    if max_size < current_tokens + para_tokens ∧ current_parts ≠ [] then
      let content0 := String.intercalate "\n\n" current_parts
      let content := if overlap_text ≠ "" ∧ start_index < chunk_idx then
          overlap_text ++ "\n\n" ++ content0 else content0
      mergeLoop ctk tokTail doc_id doc_title section_path page_numbers
        max_size overlap start_index ps
        (chunks ++ [{ doc_id := doc_id, doc_title := doc_title,
                      section_path := section_path, page_numbers := page_numbers,
                      chunk_index := chunk_idx, chunk_type := .text,
                      content := content, token_count := ctk content }])
        [para] para_tokens (chunk_idx + 1)
        (extractOverlap ctk tokTail current_parts overlap)
    else
      mergeLoop ctk tokTail doc_id doc_title section_path page_numbers
        max_size overlap start_index ps
        chunks (current_parts ++ [para]) (current_tokens + para_tokens)
        chunk_idx overlap_text

/-- _merge_paragraphs_into_chunks (target_size is accepted but unused by the
source body; only max_size and overlap act). -/
def mergeParagraphsIntoChunks (ctk : String → Nat) (tokTail : String → Nat → String)
    (paragraphs : List String) (doc_id doc_title section_path : String)
    (page_numbers : List Nat) (target_size max_size overlap start_index : Nat) :
    List Chunk :=
  let _ := target_size
  mergeLoop ctk tokTail doc_id doc_title section_path page_numbers
    max_size overlap start_index paragraphs [] [] 0 start_index ""

/-- app/core/models.py Section as the chunker consumes it (children are
never visited by semantic_chunk, which iterates top-level sections only). -/
structure SectionData where
  title : String := ""
  level : Nat := 0
  content : String := ""
  page_numbers : List Nat := []
deriving Repr, DecidableEq

/-- Section.full_content: title and content joined by a newline, skipping
empty components. -/
def sectionFullContent (s : SectionData) : String :=
  String.intercalate "\n"
    ((if s.title ≠ "" then [s.title] else []) ++
     (if s.content ≠ "" then [s.content] else []))

/-- Section.get_section_path("") reduces to the title (or the empty
string). -/
def sectionPathOf (s : SectionData) : String := s.title

/-- _chunk_section: a section of at most chunk_max_size (and more than zero)
tokens becomes one chunk; a blank section yields nothing; otherwise the
section is paragraph-split and merged. -/
def chunkSection (ctk : String → Nat) (tokTail : String → Nat → String)
    (st : TuningSettings) (sec : SectionData) (doc_id doc_title : String)
    (start_index : Nat) : List Chunk :=
  let full_text := sectionFullContent sec
  let token_count := ctk full_text
  if token_count ≤ st.chunk_max_size ∧ 0 < token_count then
    [{ doc_id := doc_id, doc_title := doc_title,
       section_path := sectionPathOf sec,
       page_numbers := sec.page_numbers, chunk_index := start_index,
       chunk_type := .text, content := full_text, token_count := token_count }]
  else if pyStrip full_text = "" then []
  else
    mergeParagraphsIntoChunks ctk tokTail (splitIntoParagraphs ctk st full_text)
      doc_id doc_title (sectionPathOf sec) sec.page_numbers
      st.chunk_target_size st.chunk_max_size st.chunk_overlap start_index

/-- app/core/models.py TableData. -/
structure TableInfo where
  content : String
  page_number : Option Nat := none
  section_path : String := ""
  caption : String := ""
deriving Repr, DecidableEq

/-- _make_table_chunk: one table chunk, caption prepended when present; the
page-number list follows Python truthiness (a zero or missing page gives an
empty list). -/
def makeTableChunk (ctk : String → Nat) (table : TableInfo)
    (doc_id doc_title : String) (chunk_index : Nat) : Chunk :=
  let content := if table.caption ≠ "" then
      "[表格: " ++ table.caption ++ "]\n" ++ table.content
    else table.content
  { doc_id := doc_id, doc_title := doc_title,
    section_path := table.section_path,
    page_numbers := match table.page_number with
      | some p => if p ≠ 0 then [p] else []
      | none => [],
    chunk_index := chunk_index, chunk_type := .table,
    content := content, token_count := ctk content }

/-- app/core/models.py ParsedDocument. -/
structure ParsedDoc where
  title : String := ""
  filename : String := ""
  page_count : Nat := 0
  sections : List SectionData := []
  tables : List TableInfo := []
  raw_text : String := ""
deriving Repr, DecidableEq

/-- _chunk_raw_text: fallback paragraph packing over the raw text. -/
def chunkRawText (ctk : String → Nat) (tokTail : String → Nat → String)
    (st : TuningSettings) (text doc_id doc_title : String) : List Chunk :=
  mergeParagraphsIntoChunks ctk tokTail (splitIntoParagraphs ctk st text)
    doc_id doc_title "" [] st.chunk_target_size st.chunk_max_size
    st.chunk_overlap 0

/-- semantic_chunk(parsed_doc, doc_id) with the sizing defaults taken from
the settings (the pipeline passes no overrides): chunk the sections with a
running index, append one chunk per table, and fall back to raw text when
nothing was produced. -/
def semanticChunk (ctk : String → Nat) (tokTail : String → Nat → String)
    (st : TuningSettings) (parsed_doc : ParsedDoc) (doc_id : String) :
    List Chunk :=
  let afterSections := parsed_doc.sections.foldl
    (fun (acc : List Chunk × Nat) sec =>
      let section_chunks := chunkSection ctk tokTail st sec doc_id
        parsed_doc.title acc.2
      (acc.1 ++ section_chunks, acc.2 + section_chunks.length)) ([], 0)
  let afterTables := parsed_doc.tables.foldl
    (fun (acc : List Chunk × Nat) table =>
      (acc.1 ++ [makeTableChunk ctk table doc_id parsed_doc.title acc.2],
       acc.2 + 1)) afterSections
  if afterTables.1 = [] ∧ parsed_doc.raw_text ≠ "" then
    chunkRawText ctk tokTail st parsed_doc.raw_text doc_id parsed_doc.title
  else afterTables.1

/-! ### Summary stage of the pipeline (app/ingestion/pipeline.py,
_generate_summaries_and_metadata and _add_contextual_descriptions)

The summarizer LLM calls are external collaborators, passed in as
functions.  Database persistence of the summaries is not modelled; only the
returned document summary and the appended summary chunks are. -/

/-- _generate_summaries_and_metadata(chunks, doc_id, title): group text
chunks by section path in first-appearance order, create one
section-summary chunk per section whose summary came back nonempty, then
one doc-summary chunk when the document summary came back nonempty.  The
summary chunks are built with only doc_id, doc_title, section_path,
chunk_type and content, so every other field keeps its pydantic default. -/
def generateSummariesAndMetadata
    (sectionSummaryFn : String → String → String → String × List String)
    (docSummaryFn : String → String → String × List (String × List String) × Option String)
    (chunks : List Chunk) (doc_id title : String) : String × List Chunk :=
  let sections := chunks.foldl (fun (acc : List (String × List Chunk)) c =>
    if c.chunk_type = .text ∧ c.section_path ≠ "" then
      if (acc.find? (fun kv => kv.1 = c.section_path)).isSome then
        acc.map (fun kv => if kv.1 = c.section_path then (kv.1, kv.2 ++ [c]) else kv)
      else acc ++ [(c.section_path, [c])]
    else acc) []
  let step := sections.foldl (fun (acc : List String × List Chunk) kv =>
    let content := String.intercalate "\n" (kv.2.map (fun c => c.content))
    let pair := sectionSummaryFn title kv.1 content
    if pair.1 ≠ "" then
      (acc.1 ++ ["【" ++ kv.1 ++ "】\n" ++ pair.1],
       acc.2 ++ [{ doc_id := doc_id, doc_title := title, section_path := kv.1,
                   chunk_type := .sectionSummary, content := pair.1 }])
    else acc) ([], [])
  if step.1 ≠ [] then
    let combined := String.intercalate "\n\n" step.1
    let res := docSummaryFn title combined
    if res.1 ≠ "" then
      (res.1, step.2 ++ [{ doc_id := doc_id, doc_title := title,
                           chunk_type := .docSummary, content := res.1 }])
    else (res.1, step.2)
  else ("", step.2)

/-- _add_contextual_descriptions: when a document summary exists, prepend
the generated contextual description to every text chunk's content (the
concurrent per-chunk mutation is order-independent, hence a map). -/
def addContextualDescriptions
    (descFn : String → String → String → String → String)
    (doc_title doc_summary : String) (chunks : List Chunk) : List Chunk :=
  if doc_summary = "" then chunks
  else chunks.map (fun c =>
    if c.chunk_type = .text then
      let desc := descFn doc_title doc_summary c.section_path c.content
      if desc ≠ "" then { c with content := desc ++ "\n\n" ++ c.content }
      else c
    else c)

/-- Steps 3 to 3.8 of process_document: semantic chunking, appending the
summary chunks, then contextual enrichment.  This is the chunk list the
pipeline goes on to embed and write to all three stores with each chunk's
chunk_index as is. -/
def pipelineChunks (ctk : String → Nat) (tokTail : String → Nat → String)
    (st : TuningSettings)
    (sectionSummaryFn : String → String → String → String × List String)
    (docSummaryFn : String → String → String × List (String × List String) × Option String)
    (descFn : String → String → String → String → String)
    (parsed_doc : ParsedDoc) (doc_id : String) : List Chunk :=
  let chunks := semanticChunk ctk tokTail st parsed_doc doc_id
  if chunks = [] then chunks
  else
    let res := generateSummariesAndMetadata sectionSummaryFn docSummaryFn
      chunks doc_id parsed_doc.title
    addContextualDescriptions descFn parsed_doc.title res.1 (chunks ++ res.2)

/-! ### Diff engine semantic layer (app/versioning/diff_engine.py)

The layer-1 textual diff and layer-2 structural diff are pure values already
computed by the engine when the semantic layer runs; they enter the model as
type parameters.  The main-LLM call is the external collaborator. -/

/-- One change-detail record of the semantic layer. -/
structure ChangeDetail where
  category : String := ""
  description : String := ""
  location : String := ""
  business_impact : String := ""
deriving Repr, DecidableEq

/-- The semantic-layer fields, either parsed from the LLM JSON (with the
.get defaults for missing keys already absorbed) or produced by the
exception branch. -/
structure SemanticDiffResult where
  change_summary : String := ""
  change_details : List ChangeDetail := []
  impact_analysis : String := ""
deriving Repr, DecidableEq

/-- _compute_semantic_diff: the LLM JSON on success; on any failure of the
call, a result whose change summary is the failure text prefixed with
"语义分析失败: ", with empty details and empty impact analysis.  The
function itself never raises. -/
def computeSemanticDiff (llm : Except String SemanticDiffResult) :
    SemanticDiffResult :=
  match llm with
  | .ok r => r
  | .error e =>
    { change_summary := "语义分析失败: " ++ e, change_details := [],
      impact_analysis := "" }

/-- A row of the version_diffs table as _store_diff inserts it; TD and SD
are the payload types of the textual and structural layers. -/
structure VersionDiffRow (TD SD : Type) where
  diff_id : String
  old_version_id : String
  new_version_id : String
  text_diff_data : TD
  structural_changes : SD
  change_summary : String
  change_details : List ChangeDetail
  impact_analysis : String
deriving Repr, DecidableEq

/-- _store_diff: persist the three layers keyed by the (old, new) pair. -/
def storeDiff (diff_id old_doc_id new_doc_id : String) (text_diff : TD)
    (structural_diff : SD) (semantic_diff : SemanticDiffResult) :
    VersionDiffRow TD SD :=
  { diff_id := diff_id, old_version_id := old_doc_id,
    new_version_id := new_doc_id, text_diff_data := text_diff,
    structural_changes := structural_diff,
    change_summary := semantic_diff.change_summary,
    change_details := semantic_diff.change_details,
    impact_analysis := semantic_diff.impact_analysis }

/-- The tail of compute_full_diff after layers 1 and 2 are computed: run the
semantic layer on the LLM outcome and persist the combined record. -/
def computeAndStoreDiff (diff_id old_doc_id new_doc_id : String)
    (text_diff : TD) (structural_diff : SD)
    (llm : Except String SemanticDiffResult) : VersionDiffRow TD SD :=
  storeDiff diff_id old_doc_id new_doc_id text_diff structural_diff
    (computeSemanticDiff llm)

/-! ### Lemmas on the RRF score dictionary -/

theorem find_key_isSome_iff {α : Type} (m : List (String × α)) (q : String) :
    (m.find? (fun kv => kv.1 = q)).isSome ↔ q ∈ m.map Prod.fst := by
  induction m with
  | nil => simp
  | cons kv rest ih =>
    by_cases h : kv.1 = q
    · simp [List.find?_cons, h]
    · simp [List.find?_cons, h, ih, Ne.symm h]

theorem dictGetD_bump (m : List (String × ℚ)) (key q : String) (d : ℚ) :
    dictGetD (bump m key d) q 0 =
      dictGetD m q 0 + (if key = q then d else 0) := by
  induction m with
  | nil =>
    by_cases h : key = q <;> simp [bump, dictGetD, List.find?_cons, h]
  | cons kv rest ih =>
    by_cases h : kv.1 = key
    · by_cases h2 : kv.1 = q
      · have : key = q := h ▸ h2
        simp [bump, dictGetD, List.find?_cons, h, h2, this]
      · have : ¬ key = q := fun hq => h2 (hq ▸ h)
        simp [bump, dictGetD, List.find?_cons, h, h2, this]
    · by_cases h2 : kv.1 = q
      · have hnkq : ¬ key = q := fun hq => h (h2.trans hq.symm)
        have hnqk : ¬ q = key := fun hq => hnkq hq.symm
        simp [bump, dictGetD, List.find?_cons, h, h2, hnkq, hnqk]
      · simpa [bump, dictGetD, List.find?_cons, h, h2] using ih

theorem bump_map_fst_mem (m : List (String × ℚ)) (key q : String) (d : ℚ) :
    q ∈ (bump m key d).map Prod.fst ↔ q ∈ m.map Prod.fst ∨ q = key := by
  induction m with
  | nil => simp [bump]
  | cons kv rest ih =>
    by_cases h : kv.1 = key
    · simp [bump, h]
      tauto
    · simp [bump, h, ih]
      tauto

theorem rrfAccumulate_score (k : ℚ) (ow : Bool) :
    ∀ (cs : List RetrievedChunk) (r : Nat)
      (sc : List (String × ℚ)) (cm : List (String × RetrievedChunk))
      (q : String),
    dictGetD (rrfAccumulate k ow (sc, cm) cs r).1 q 0 =
      dictGetD sc q 0 + rrfContribAux k cs r q := by
  intro cs
  induction cs with
  | nil => intro r sc cm q; simp [rrfAccumulate, rrfContribAux]
  | cons c rest ih =>
    intro r sc cm q
    simp only [rrfAccumulate, rrfContribAux]
    rw [ih, dictGetD_bump, add_assoc]

theorem rrfAccumulate_keys_mem (k : ℚ) (ow : Bool) :
    ∀ (cs : List RetrievedChunk) (r : Nat)
      (sc : List (String × ℚ)) (cm : List (String × RetrievedChunk))
      (q : String),
    q ∈ ((rrfAccumulate k ow (sc, cm) cs r).1.map Prod.fst) ↔
      q ∈ sc.map Prod.fst ∨ q ∈ cs.map (fun c => c.chunk_id) := by
  intro cs
  induction cs with
  | nil => intro r sc cm q; simp [rrfAccumulate]
  | cons c rest ih =>
    intro r sc cm q
    simp only [rrfAccumulate]
    rw [ih]
    rw [bump_map_fst_mem]
    simp [List.map_cons]
    tauto

/-! ### Lemmas on the RRF chunk map -/

/-- Every entry of the chunk map carries the chunk whose identifier is its
key. -/
def GoodMap (m : List (String × RetrievedChunk)) : Prop :=
  ∀ q c, mapFind m q = some c → c.chunk_id = q

theorem goodMap_nil : GoodMap [] := by
  intro q c h
  simp [mapFind] at h

theorem mapFind_nil (q : String) : mapFind [] q = none := rfl

theorem mapFind_cons (kv : String × RetrievedChunk)
    (rest : List (String × RetrievedChunk)) (q : String) :
    mapFind (kv :: rest) q = if kv.1 = q then some kv.2 else mapFind rest q := by
  by_cases h : kv.1 = q <;> simp [mapFind, List.find?_cons, h]

theorem mapFind_mapSet (m : List (String × RetrievedChunk))
    (c : RetrievedChunk) (q : String) :
    mapFind (mapSet m c.chunk_id c) q =
      if c.chunk_id = q then some c else mapFind m q := by
  induction m with
  | nil =>
    by_cases h : c.chunk_id = q <;>
      simp [mapSet, mapFind_cons, mapFind_nil, h]
  | cons kv rest ih =>
    by_cases h : kv.1 = c.chunk_id
    · rw [show mapSet (kv :: rest) c.chunk_id c = (kv.1, c) :: rest from by
        simp [mapSet, h]]
      rw [mapFind_cons, mapFind_cons]
      by_cases h2 : kv.1 = q
      · rw [if_pos h2, if_pos (h.symm.trans h2)]
      · rw [if_neg h2, if_neg (fun hq => h2 (h.trans hq)), if_neg h2]
    · rw [show mapSet (kv :: rest) c.chunk_id c =
          kv :: mapSet rest c.chunk_id c from by simp [mapSet, h]]
      rw [mapFind_cons, ih, mapFind_cons]
      by_cases h2 : kv.1 = q
      · rw [if_pos h2, if_neg (fun hq => h (h2.trans hq.symm)), if_pos h2]
      · rw [if_neg h2, if_neg h2]

theorem mapFind_append_single (key q : String) (c : RetrievedChunk) :
    ∀ (m : List (String × RetrievedChunk)), mapFind m q = none →
    mapFind (m ++ [(key, c)]) q = if key = q then some c else none := by
  intro m
  induction m with
  | nil =>
    intro _
    by_cases h : key = q <;> simp [mapFind_cons, mapFind_nil, h]
  | cons kv rest ih =>
    intro habs
    rw [mapFind_cons] at habs
    by_cases h : kv.1 = q
    · rw [if_pos h] at habs
      cases habs
    · rw [if_neg h] at habs
      rw [List.cons_append, mapFind_cons, if_neg h]
      exact ih habs

theorem mapFind_mapSetIfAbsent (m : List (String × RetrievedChunk))
    (c : RetrievedChunk) (q : String) :
    mapFind (mapSetIfAbsent m c.chunk_id c) q =
      if (mapFind m q).isSome then mapFind m q
      else if c.chunk_id = q then some c else none := by
  unfold mapSetIfAbsent
  by_cases hpres : ((m.find? (fun kv => kv.1 = c.chunk_id)).isSome : Prop)
  · rw [if_pos hpres]
    by_cases hq : ((mapFind m q).isSome : Prop)
    · simp [hq]
    · rw [if_neg hq]
      by_cases hcq : c.chunk_id = q
      · exfalso
        apply hq
        rw [← hcq]
        simpa [mapFind] using hpres
      · rw [if_neg hcq]
        simpa [Option.not_isSome_iff_eq_none] using hq
  · rw [if_neg hpres]
    by_cases hq : ((mapFind m q).isSome : Prop)
    · rw [if_pos hq]
      obtain ⟨c0, hc0⟩ := Option.isSome_iff_exists.mp hq
      rw [hc0]
      unfold mapFind at hc0 ⊢
      rw [List.find?_append]
      obtain ⟨kv, hkv, hmap⟩ := Option.map_eq_some'.mp hc0
      simp [hkv, hmap]
    · rw [if_neg hq]
      have hnone : mapFind m q = none := by
        simpa [Option.not_isSome_iff_eq_none] using hq
      exact mapFind_append_single c.chunk_id q c m hnone

theorem goodMap_mapSet (m : List (String × RetrievedChunk))
    (c : RetrievedChunk) (hg : GoodMap m) :
    GoodMap (mapSet m c.chunk_id c) := by
  intro q c0 h
  rw [mapFind_mapSet] at h
  by_cases hc : c.chunk_id = q
  · rw [if_pos hc] at h
    cases h
    exact hc
  · rw [if_neg hc] at h
    exact hg q c0 h

theorem goodMap_mapSetIfAbsent (m : List (String × RetrievedChunk))
    (c : RetrievedChunk) (hg : GoodMap m) :
    GoodMap (mapSetIfAbsent m c.chunk_id c) := by
  intro q c0 h
  rw [mapFind_mapSetIfAbsent] at h
  by_cases hq : ((mapFind m q).isSome : Prop)
  · rw [if_pos hq] at h
    exact hg q c0 h
  · rw [if_neg hq] at h
    by_cases hc : c.chunk_id = q
    · rw [if_pos hc] at h
      cases h
      exact hc
    · rw [if_neg hc] at h
      cases h

theorem rrfAccumulate_goodMap (k : ℚ) (ow : Bool) :
    ∀ (cs : List RetrievedChunk) (r : Nat)
      (sc : List (String × ℚ)) (cm : List (String × RetrievedChunk)),
    GoodMap cm → GoodMap (rrfAccumulate k ow (sc, cm) cs r).2 := by
  intro cs
  induction cs with
  | nil => intro r sc cm hg; simpa [rrfAccumulate] using hg
  | cons c rest ih =>
    intro r sc cm hg
    simp only [rrfAccumulate]
    apply ih
    cases ow with
    | true => simpa using goodMap_mapSet cm c hg
    | false => simpa using goodMap_mapSetIfAbsent cm c hg

theorem rrfAccumulate_mapFind_isSome (k : ℚ) (ow : Bool) :
    ∀ (cs : List RetrievedChunk) (r : Nat)
      (sc : List (String × ℚ)) (cm : List (String × RetrievedChunk))
      (q : String),
    (mapFind (rrfAccumulate k ow (sc, cm) cs r).2 q).isSome ↔
      (mapFind cm q).isSome ∨ q ∈ cs.map (fun c => c.chunk_id) := by
  intro cs
  induction cs with
  | nil => intro r sc cm q; simp [rrfAccumulate]
  | cons c rest ih =>
    intro r sc cm q
    cases ow with
    | true =>
      rw [show rrfAccumulate k true (sc, cm) (c :: rest) r =
          rrfAccumulate k true
            (bump sc c.chunk_id (1 / (k + r)), mapSet cm c.chunk_id c)
            rest (r + 1) from by simp [rrfAccumulate]]
      rw [ih]
      rw [mapFind_mapSet]
      by_cases hc : c.chunk_id = q
      · simp [hc]
      · simp [hc, Ne.symm hc]
    | false =>
      rw [show rrfAccumulate k false (sc, cm) (c :: rest) r =
          rrfAccumulate k false
            (bump sc c.chunk_id (1 / (k + r)), mapSetIfAbsent cm c.chunk_id c)
            rest (r + 1) from by simp [rrfAccumulate]]
      rw [ih]
      rw [mapFind_mapSetIfAbsent]
      by_cases hq : ((mapFind cm q).isSome : Prop)
      · simp [hq]
      · by_cases hc : c.chunk_id = q
        · simp [hq, hc]
        · simp [hq, hc, Ne.symm hc]

/-! ### Lemmas on the stable descending sort -/

theorem insertDesc_perm (key : α → ℚ) (x : α) (l : List α) :
    List.Perm (insertDesc key x l) (x :: l) := by
  induction l with
  | nil => simp [insertDesc]
  | cons y ys ih =>
    by_cases h : key y < key x
    · simp [insertDesc, h]
    · simp only [insertDesc, if_neg h]
      exact (List.Perm.cons y ih).trans (List.Perm.swap x y ys)

theorem sortDescBy_perm (key : α → ℚ) (l : List α) :
    List.Perm (sortDescBy key l) l := by
  have main : ∀ (l acc : List α),
      List.Perm (l.foldl (fun acc x => insertDesc key x acc) acc) (acc ++ l) := by
    intro l
    induction l with
    | nil => intro acc; simp
    | cons x xs ih =>
      intro acc
      simp only [List.foldl_cons]
      refine (ih (insertDesc key x acc)).trans ?_
      have h1 : List.Perm (insertDesc key x acc ++ xs) ((x :: acc) ++ xs) :=
        List.Perm.append_right xs (insertDesc_perm key x acc)
      refine h1.trans ?_
      have hmid : List.Perm (acc ++ x :: xs) (x :: (acc ++ xs)) :=
        List.perm_middle
      simpa using hmid.symm
  simpa using main l []

theorem mem_insertDesc (key : α → ℚ) (x y : α) (l : List α) :
    y ∈ insertDesc key x l ↔ y = x ∨ y ∈ l := by
  rw [(insertDesc_perm key x l).mem_iff]
  simp

theorem pairwise_insertDesc (key : α → ℚ) (x : α) (l : List α)
    (h : List.Pairwise (fun a b => key b ≤ key a) l) :
    List.Pairwise (fun a b => key b ≤ key a) (insertDesc key x l) := by
  induction l with
  | nil => simp [insertDesc]
  | cons y ys ih =>
    rcases List.pairwise_cons.mp h with ⟨hy, hys⟩
    by_cases hlt : key y < key x
    · simp only [insertDesc, if_pos hlt]
      refine List.pairwise_cons.mpr ⟨?_, h⟩
      intro z hz
      rcases List.mem_cons.mp hz with h1 | h1
      · exact le_of_lt (h1 ▸ hlt)
      · exact le_trans (hy z h1) (le_of_lt hlt)
    · simp only [insertDesc, if_neg hlt]
      refine List.pairwise_cons.mpr ⟨?_, ih hys⟩
      intro z hz
      rcases (mem_insertDesc key x z ys).mp hz with h1 | h1
      · exact h1 ▸ le_of_not_lt hlt
      · exact hy z h1

theorem sortDescBy_sorted (key : α → ℚ) (l : List α) :
    List.Pairwise (fun a b => key b ≤ key a) (sortDescBy key l) := by
  have main : ∀ (l acc : List α),
      List.Pairwise (fun a b => key b ≤ key a) acc →
      List.Pairwise (fun a b => key b ≤ key a)
        (l.foldl (fun acc x => insertDesc key x acc) acc) := by
    intro l
    induction l with
    | nil => intro acc h; simpa using h
    | cons x xs ih =>
      intro acc h
      simp only [List.foldl_cons]
      exact ih _ (pairwise_insertDesc key x acc h)
  exact main l [] List.Pairwise.nil

theorem insertDesc_of_lt (key : α → ℚ) (x : α) (l : List α)
    (h : ∀ y ∈ l, key x < key y) :
    insertDesc key x l = l ++ [x] := by
  induction l with
  | nil => simp [insertDesc]
  | cons y ys ih =>
    have hy : key x < key y := h y (List.mem_cons_self y ys)
    have : ¬ key y < key x := not_lt_of_gt hy
    simp only [insertDesc, if_neg this, List.cons_append, List.cons.injEq,
      true_and]
    exact ih (fun z hz => h z (List.mem_cons_of_mem y hz))

theorem sortDescBy_of_strict_desc (key : α → ℚ) (l : List α)
    (h : List.Pairwise (fun a b => key b < key a) l) :
    sortDescBy key l = l := by
  have main : ∀ (l acc : List α),
      (∀ y ∈ acc, ∀ x ∈ l, key x < key y) →
      List.Pairwise (fun a b => key b < key a) l →
      l.foldl (fun acc x => insertDesc key x acc) acc = acc ++ l := by
    intro l
    induction l with
    | nil => intro acc _ _; simp
    | cons x xs ih =>
      intro acc hacc hpair
      rcases List.pairwise_cons.mp hpair with ⟨hx, hxs⟩
      simp only [List.foldl_cons]
      rw [insertDesc_of_lt key x acc
        (fun y hy => hacc y hy x (List.mem_cons_self x xs))]
      rw [ih (acc ++ [x]) ?_ hxs]
      · simp
      · intro y hy z hz
        rcases List.mem_append.mp hy with h1 | h1
        · exact hacc y h1 z (List.mem_cons_of_mem x hz)
        · rcases List.mem_singleton.mp h1 with rfl
          exact hx z hz
  simpa using main l [] (by simp) h

/-! ### Lemmas for fusing a list with itself -/

theorem rrfContribAux_not_mem (k : ℚ) (q : String) :
    ∀ (cs : List RetrievedChunk) (r : Nat),
    q ∉ cs.map (fun c => c.chunk_id) → rrfContribAux k cs r q = 0 := by
  intro cs
  induction cs with
  | nil => intro r _; simp [rrfContribAux]
  | cons c rest ih =>
    intro r hq
    simp only [List.map_cons, List.mem_cons, not_or] at hq
    have hne : ¬ c.chunk_id = q := fun h => hq.1 h.symm
    simp only [rrfContribAux, if_neg hne]
    rw [ih (r + 1) hq.2]
    ring

theorem rrfContribAux_nodup (k : ℚ) :
    ∀ (cs : List RetrievedChunk) (i r : Nat) (h : i < cs.length),
    (cs.map (fun c => c.chunk_id)).Nodup →
    rrfContribAux k cs r ((cs.get ⟨i, h⟩).chunk_id) =
      1 / (k + ((r + i : Nat) : ℚ)) := by
  intro cs
  induction cs with
  | nil => intro i r h; simp at h
  | cons c rest ih =>
    intro i r h hnd
    rw [List.map_cons, List.nodup_cons] at hnd
    obtain ⟨hnotin, hnd2⟩ := hnd
    cases i with
    | zero =>
      simp only [List.get, rrfContribAux, if_pos rfl]
      rw [rrfContribAux_not_mem k _ rest (r + 1) hnotin]
      norm_num
    | succ i =>
      have hi : i < rest.length := by simpa using h
      have hmem : (rest.get ⟨i, hi⟩).chunk_id ∈
          rest.map (fun c => c.chunk_id) :=
        List.mem_map_of_mem _ (rest.get_mem i hi)
      have hne : ¬ c.chunk_id = (rest.get ⟨i, hi⟩).chunk_id :=
        fun he => hnotin (he ▸ hmem)
      simp only [List.get, rrfContribAux, if_neg hne]
      rw [ih i (r + 1) hi hnd2]
      have : r + 1 + i = r + (i + 1) := by omega
      rw [this, zero_add]

theorem rrfDoubled_length (k : ℚ) :
    ∀ (l : List RetrievedChunk) (r : Nat), (rrfDoubled k l r).length = l.length := by
  intro l
  induction l with
  | nil => intro r; simp [rrfDoubled]
  | cons c rest ih => intro r; simp [rrfDoubled, ih]

theorem rrfDoubled_get (k : ℚ) :
    ∀ (l : List RetrievedChunk) (i r : Nat) (h : i < l.length)
      (h2 : i < (rrfDoubled k l r).length),
    (rrfDoubled k l r).get ⟨i, h2⟩ =
      { l.get ⟨i, h⟩ with score := 2 * (1 / (k + ((r + i : Nat) : ℚ))) } := by
  intro l
  induction l with
  | nil => intro i r h; simp at h
  | cons c rest ih =>
    intro i r h h2
    cases i with
    | zero => simp [rrfDoubled, List.get]
    | succ i =>
      have hi : i < rest.length := by simpa using h
      have hi2 : i < (rrfDoubled k rest (r + 1)).length := by
        rw [rrfDoubled_length]; exact hi
      simp only [rrfDoubled, List.get]
      rw [ih i (r + 1) hi hi2]
      have : r + 1 + i = r + (i + 1) := by omega
      rw [this]

theorem filterMap_total {α β : Type} (f : α → Option β) (g : α → β) :
    ∀ (l : List α), (∀ x ∈ l, f x = some (g x)) → l.filterMap f = l.map g := by
  intro l
  induction l with
  | nil => intro _; simp
  | cons a rest ih =>
    intro h
    rw [List.filterMap_cons, h a (List.mem_cons_self a rest), List.map_cons]
    rw [ih (fun x hx => h x (List.mem_cons_of_mem a hx))]

theorem bump_not_mem (q : String) (d : ℚ) :
    ∀ (m : List (String × ℚ)), q ∉ m.map Prod.fst →
    bump m q d = m ++ [(q, d)] := by
  intro m
  induction m with
  | nil => intro _; simp [bump]
  | cons kv rest ih =>
    intro h
    simp only [List.map_cons, List.mem_cons, not_or] at h
    have hne : ¬ kv.1 = q := fun he => h.1 he.symm
    simp only [bump, if_neg hne, List.cons_append, List.cons.injEq, true_and]
    exact ih h.2

theorem bump_mem_keys (q : String) (d : ℚ) :
    ∀ (m : List (String × ℚ)), q ∈ m.map Prod.fst →
    (bump m q d).map Prod.fst = m.map Prod.fst := by
  intro m
  induction m with
  | nil => intro h; simp at h
  | cons kv rest ih =>
    intro h
    by_cases he : kv.1 = q
    · simp [bump, he]
    · simp only [List.map_cons, List.mem_cons] at h
      rcases h with h | h

      · exact absurd h.symm he
      · simp only [bump, if_neg he, List.map_cons, List.cons.injEq, true_and]
        exact ih h

theorem mapSet_absent (q : String) (c : RetrievedChunk) :
    ∀ (m : List (String × RetrievedChunk)), mapFind m q = none →
    mapSet m q c = m ++ [(q, c)] := by
  intro m
  induction m with
  | nil => intro _; simp [mapSet]
  | cons kv rest ih =>
    intro h
    rw [mapFind_cons] at h
    by_cases he : kv.1 = q
    · rw [if_pos he] at h
      cases h
    · rw [if_neg he] at h
      simp only [mapSet, if_neg he, List.cons_append, List.cons.injEq, true_and]
      exact ih h

theorem mapSetIfAbsent_present (q : String) (c : RetrievedChunk)
    (m : List (String × RetrievedChunk)) (h : (mapFind m q).isSome) :
    mapSetIfAbsent m q c = m := by
  unfold mapSetIfAbsent
  rw [if_pos]
  simpa [mapFind] using h

theorem rrfAccumulate_keys_fresh (k : ℚ) (ow : Bool) :
    ∀ (cs : List RetrievedChunk) (r : Nat)
      (sc : List (String × ℚ)) (cm : List (String × RetrievedChunk)),
    (∀ q ∈ cs.map (fun c => c.chunk_id), q ∉ sc.map Prod.fst) →
    (cs.map (fun c => c.chunk_id)).Nodup →
    ((rrfAccumulate k ow (sc, cm) cs r).1).map Prod.fst =
      sc.map Prod.fst ++ cs.map (fun c => c.chunk_id) := by
  intro cs
  induction cs with
  | nil => intro r sc cm _ _; simp [rrfAccumulate]
  | cons c rest ih =>
    intro r sc cm hdisj hnd
    rw [List.map_cons, List.nodup_cons] at hnd
    obtain ⟨hnotin, hnd2⟩ := hnd
    have hcfresh : c.chunk_id ∉ sc.map Prod.fst :=
      hdisj c.chunk_id (by simp)
    simp only [rrfAccumulate]
    rw [ih (r + 1) _ _ ?_ hnd2]
    · rw [bump_not_mem _ _ _ hcfresh]
      simp
    · intro q hq
      rw [bump_not_mem _ _ _ hcfresh]
      simp only [List.map_append, List.mem_append, List.map_cons,
        List.map_nil, List.mem_singleton, not_or]
      exact ⟨hdisj q (by simp [hq]), fun he => hnotin (he ▸ hq)⟩

theorem rrfAccumulate_keys_present (k : ℚ) (ow : Bool) :
    ∀ (cs : List RetrievedChunk) (r : Nat)
      (sc : List (String × ℚ)) (cm : List (String × RetrievedChunk)),
    (∀ q ∈ cs.map (fun c => c.chunk_id), q ∈ sc.map Prod.fst) →
    ((rrfAccumulate k ow (sc, cm) cs r).1).map Prod.fst = sc.map Prod.fst := by
  intro cs
  induction cs with
  | nil => intro r sc cm _; simp [rrfAccumulate]
  | cons c rest ih =>
    intro r sc cm hpres
    have hc : c.chunk_id ∈ sc.map Prod.fst := hpres c.chunk_id (by simp)
    simp only [rrfAccumulate]
    rw [ih (r + 1)]
    · exact bump_mem_keys _ _ _ hc
    · intro q hq
      rw [bump_mem_keys _ _ _ hc]
      exact hpres q (by simp [hq])

theorem rrfAccumulate_cm_fresh (k : ℚ) :
    ∀ (cs : List RetrievedChunk) (r : Nat)
      (sc : List (String × ℚ)) (cm : List (String × RetrievedChunk)),
    (∀ q ∈ cs.map (fun c => c.chunk_id), mapFind cm q = none) →
    (cs.map (fun c => c.chunk_id)).Nodup →
    (rrfAccumulate k true (sc, cm) cs r).2 =
      cm ++ cs.map (fun c => (c.chunk_id, c)) := by
  intro cs
  induction cs with
  | nil => intro r sc cm _ _; simp [rrfAccumulate]
  | cons c rest ih =>
    intro r sc cm habs hnd
    rw [List.map_cons, List.nodup_cons] at hnd
    obtain ⟨hnotin, hnd2⟩ := hnd
    have hcabs : mapFind cm c.chunk_id = none := habs c.chunk_id (by simp)
    simp only [rrfAccumulate]
    rw [if_pos trivial]
    rw [ih (r + 1) _ _ ?_ hnd2]
    · rw [mapSet_absent _ _ _ hcabs]
      simp
    · intro q hq
      rw [mapSet_absent _ _ _ hcabs]
      rw [mapFind_append_single _ _ _ _ (habs q (by simp [hq]))]
      rw [if_neg (fun he : c.chunk_id = q => hnotin (he ▸ hq))]

theorem rrfAccumulate_cm_present (k : ℚ) :
    ∀ (cs : List RetrievedChunk) (r : Nat)
      (sc : List (String × ℚ)) (cm : List (String × RetrievedChunk)),
    (∀ q ∈ cs.map (fun c => c.chunk_id), (mapFind cm q).isSome) →
    (rrfAccumulate k false (sc, cm) cs r).2 = cm := by
  intro cs
  induction cs with
  | nil => intro r sc cm _; simp [rrfAccumulate]
  | cons c rest ih =>
    intro r sc cm hpres
    have hc := hpres c.chunk_id (by simp)
    simp only [rrfAccumulate]
    rw [show (if false = true then mapSet cm c.chunk_id c
        else mapSetIfAbsent cm c.chunk_id c) =
        mapSetIfAbsent cm c.chunk_id c from by simp]
    rw [mapSetIfAbsent_present _ _ _ hc]
    exact ih (r + 1) _ _ (fun q hq => hpres q (by simp [hq]))

theorem mapFind_pairs_nodup :
    ∀ (v : List RetrievedChunk) (i : Nat) (h : i < v.length),
    (v.map (fun c => c.chunk_id)).Nodup →
    mapFind (v.map (fun c => (c.chunk_id, c))) ((v.get ⟨i, h⟩).chunk_id) =
      some (v.get ⟨i, h⟩) := by
  intro v
  induction v with
  | nil => intro i h; simp at h
  | cons c rest ih =>
    intro i h hnd
    rw [List.map_cons, List.nodup_cons] at hnd
    obtain ⟨hnotin, hnd2⟩ := hnd
    cases i with
    | zero => simp [List.get, List.map_cons, mapFind_cons]
    | succ i =>
      have hi : i < rest.length := by simpa using h
      have hmem : (rest.get ⟨i, hi⟩).chunk_id ∈
          rest.map (fun c => c.chunk_id) :=
        List.mem_map_of_mem _ (rest.get_mem i hi)
      have hne : ¬ c.chunk_id = (rest.get ⟨i, hi⟩).chunk_id :=
        fun he => hnotin (he ▸ hmem)
      simp only [List.get, List.map_cons, mapFind_cons, if_neg hne]
      exact ih i hi hnd2

theorem mapFind_pairs_isSome (v : List RetrievedChunk) (q : String) :
    (mapFind (v.map (fun c => (c.chunk_id, c))) q).isSome ↔
      q ∈ v.map (fun c => c.chunk_id) := by
  induction v with
  | nil => simp [mapFind_nil]
  | cons c rest ih =>
    simp only [List.map_cons, mapFind_cons]
    by_cases h : c.chunk_id = q
    · simp [h]
    · simp [h, Ne.symm h, ih]

/-! ### Properties of the full RRF fusion -/

theorem rrfFusion_unfold (st : TuningSettings) (v b : List RetrievedChunk) :
    rrfFusion st v b none =
      (sortDescBy
        (fun cid => dictGetD
          (rrfAccumulate st.retrieval_rrf_k false
            (rrfAccumulate st.retrieval_rrf_k true ([], []) v 1) b 1).1 cid 0)
        ((rrfAccumulate st.retrieval_rrf_k false
            (rrfAccumulate st.retrieval_rrf_k true ([], []) v 1) b 1).1.map
          (fun kv => kv.1))).filterMap
        (fun cid =>
          (mapFind (rrfAccumulate st.retrieval_rrf_k false
            (rrfAccumulate st.retrieval_rrf_k true ([], []) v 1) b 1).2 cid).map
          (fun c => { c with score := dictGetD (rrfAccumulate st.retrieval_rrf_k false (rrfAccumulate st.retrieval_rrf_k true ([], []) v 1) b 1).1 cid 0 })) :=
  rfl

theorem rrfFusion_score_eq (st : TuningSettings) (v b : List RetrievedChunk) :
    ∀ c ∈ rrfFusion st v b none,
      c.score = rrfContrib st.retrieval_rrf_k v c.chunk_id +
                rrfContrib st.retrieval_rrf_k b c.chunk_id := by
  intro c hc
  rcases h1 : rrfAccumulate st.retrieval_rrf_k true ([], []) v 1 with ⟨sc1, cm1⟩
  rw [rrfFusion_unfold, h1, List.mem_filterMap] at hc
  obtain ⟨cid, hcid, hf⟩ := hc
  obtain ⟨c0, hc0, hmap⟩ := Option.map_eq_some'.mp hf
  have hgm : GoodMap (rrfAccumulate st.retrieval_rrf_k false (sc1, cm1) b 1).2 := by
    apply rrfAccumulate_goodMap
    have h0 := rrfAccumulate_goodMap st.retrieval_rrf_k true v 1 [] [] goodMap_nil
    rw [h1] at h0
    exact h0
  have hid : c0.chunk_id = cid := hgm cid c0 hc0
  rw [← hmap]
  simp only [hid]
  rw [rrfAccumulate_score]
  have h2 : dictGetD sc1 cid 0 = rrfContribAux st.retrieval_rrf_k v 1 cid := by
    have h3 := rrfAccumulate_score st.retrieval_rrf_k true v 1 [] [] cid
    rw [h1] at h3
    simpa [dictGetD] using h3
  rw [h2]
  rfl

theorem rrfFusion_mem_ids (st : TuningSettings) (v b : List RetrievedChunk)
    (cid : String) :
    cid ∈ (rrfFusion st v b none).map (fun c => c.chunk_id) ↔
      cid ∈ v.map (fun c => c.chunk_id) ∨ cid ∈ b.map (fun c => c.chunk_id) := by
  rcases h1 : rrfAccumulate st.retrieval_rrf_k true ([], []) v 1 with ⟨sc1, cm1⟩
  have hgm : GoodMap (rrfAccumulate st.retrieval_rrf_k false (sc1, cm1) b 1).2 := by
    apply rrfAccumulate_goodMap
    have h0 := rrfAccumulate_goodMap st.retrieval_rrf_k true v 1 [] [] goodMap_nil
    rw [h1] at h0
    exact h0
  have hsc1 : ∀ q, q ∈ sc1.map Prod.fst ↔ q ∈ v.map (fun c => c.chunk_id) := by
    intro q
    have h3 := rrfAccumulate_keys_mem st.retrieval_rrf_k true v 1 [] [] q
    rw [h1] at h3
    simpa using h3
  have hkeys : ∀ q,
      q ∈ ((rrfAccumulate st.retrieval_rrf_k false (sc1, cm1) b 1).1.map Prod.fst) ↔
      q ∈ v.map (fun c => c.chunk_id) ∨ q ∈ b.map (fun c => c.chunk_id) := by
    intro q
    rw [rrfAccumulate_keys_mem, hsc1]
  have hdom : ∀ q, q ∈ v.map (fun c => c.chunk_id) ∨ q ∈ b.map (fun c => c.chunk_id) →
      (mapFind (rrfAccumulate st.retrieval_rrf_k false (sc1, cm1) b 1).2 q).isSome := by
    intro q hq
    rw [rrfAccumulate_mapFind_isSome]
    have hcm1 : ∀ q2, (mapFind cm1 q2).isSome ↔ q2 ∈ v.map (fun c => c.chunk_id) := by
      intro q2
      have h3 := rrfAccumulate_mapFind_isSome st.retrieval_rrf_k true v 1 [] [] q2
      rw [h1] at h3
      simpa [mapFind_nil] using h3
    rw [hcm1]
    exact hq
  rw [rrfFusion_unfold, h1]
  constructor
  · intro h
    rw [List.mem_map] at h
    obtain ⟨c, hc, hcid⟩ := h
    rw [List.mem_filterMap] at hc
    obtain ⟨cid2, hcid2, hf⟩ := hc
    obtain ⟨c0, hc0, hmap⟩ := Option.map_eq_some'.mp hf
    have hid : c0.chunk_id = cid2 := hgm cid2 c0 hc0
    have : cid = cid2 := by
      rw [← hcid, ← hmap]
      exact hid
    subst this
    rw [← hkeys]
    exact ((sortDescBy_perm _ _).mem_iff).mp hcid2
  · intro h
    have hin : cid ∈ ((rrfAccumulate st.retrieval_rrf_k false (sc1, cm1) b 1).1.map
        Prod.fst) := (hkeys cid).mpr h
    have hsort : cid ∈ sortDescBy
        (fun cid2 => dictGetD (rrfAccumulate st.retrieval_rrf_k false (sc1, cm1) b 1).1 cid2 0)
        ((rrfAccumulate st.retrieval_rrf_k false (sc1, cm1) b 1).1.map (fun kv => kv.1)) :=
      ((sortDescBy_perm _ _).mem_iff).mpr hin
    obtain ⟨c0, hc0⟩ := Option.isSome_iff_exists.mp (hdom cid h)
    rw [List.mem_map]
    refine ⟨{ c0 with score := dictGetD (rrfAccumulate st.retrieval_rrf_k false (sc1, cm1) b 1).1 cid 0 }, ?_, ?_⟩
    · rw [List.mem_filterMap]
      exact ⟨cid, hsort, by rw [hc0]; rfl⟩
    · exact hgm cid c0 hc0

theorem pairwise_filterMap_of {α β : Type} (f : α → Option β)
    (R : α → α → Prop) (S : β → β → Prop)
    (hf : ∀ a a2 x y, R a a2 → f a = some x → f a2 = some y → S x y) :
    ∀ l, List.Pairwise R l → List.Pairwise S (l.filterMap f) := by
  intro l
  induction l with
  | nil => intro _; simp
  | cons a rest ih =>
    intro h
    rcases List.pairwise_cons.mp h with ⟨ha, hrest⟩
    rw [List.filterMap_cons]
    cases hfa : f a with
    | none => exact ih hrest
    | some x =>
      refine List.pairwise_cons.mpr ⟨?_, ih hrest⟩
      intro y hy
      rw [List.mem_filterMap] at hy
      obtain ⟨a2, ha2, hfa2⟩ := hy
      exact hf a a2 x y (ha a2 ha2) hfa hfa2

theorem rrfFusion_sorted (st : TuningSettings) (v b : List RetrievedChunk) :
    List.Pairwise (fun x y => y ≤ x)
      ((rrfFusion st v b none).map (fun c => c.score)) := by
  rw [List.pairwise_map, rrfFusion_unfold]
  apply pairwise_filterMap_of _
    (fun a a2 => dictGetD
      (rrfAccumulate st.retrieval_rrf_k false
        (rrfAccumulate st.retrieval_rrf_k true ([], []) v 1) b 1).1 a2 0 ≤
      dictGetD
      (rrfAccumulate st.retrieval_rrf_k false
        (rrfAccumulate st.retrieval_rrf_k true ([], []) v 1) b 1).1 a 0) _ ?_ _
    (sortDescBy_sorted _ _)
  intro a a2 x y hr hx hy
  obtain ⟨c0, _, hmap⟩ := Option.map_eq_some'.mp hx
  obtain ⟨c2, _, hmap2⟩ := Option.map_eq_some'.mp hy
  rw [← hmap, ← hmap2]
  exact hr

theorem rrfFusion_self (st : TuningSettings) (hk : 0 ≤ st.retrieval_rrf_k)
    (v : List RetrievedChunk) (hv : (v.map (fun c => c.chunk_id)).Nodup) :
    rrfFusion st v v none = rrfDoubled st.retrieval_rrf_k v 1 := by
  rcases h1 : rrfAccumulate st.retrieval_rrf_k true ([], []) v 1 with ⟨sc1, cm1⟩
  have hsc1keys : sc1.map Prod.fst = v.map (fun c => c.chunk_id) := by
    have h3 := rrfAccumulate_keys_fresh st.retrieval_rrf_k true v 1 [] []
      (by simp) hv
    rw [h1] at h3
    simpa using h3
  have hcm1 : cm1 = v.map (fun c => (c.chunk_id, c)) := by
    have h3 := rrfAccumulate_cm_fresh st.retrieval_rrf_k v 1 [] []
      (by intro q _; exact mapFind_nil q) hv
    rw [h1] at h3
    simpa using h3
  have hkeys2 : (rrfAccumulate st.retrieval_rrf_k false (sc1, cm1) v 1).1.map
      Prod.fst = v.map (fun c => c.chunk_id) := by
    rw [rrfAccumulate_keys_present st.retrieval_rrf_k false v 1 sc1 cm1
      (fun q hq => by rw [hsc1keys]; exact hq)]
    exact hsc1keys
  have hcm2 : (rrfAccumulate st.retrieval_rrf_k false (sc1, cm1) v 1).2 = cm1 := by
    apply rrfAccumulate_cm_present
    intro q hq
    rw [hcm1]
    exact (mapFind_pairs_isSome v q).mpr hq
  have hscore : ∀ (i : Nat) (h : i < v.length),
      dictGetD (rrfAccumulate st.retrieval_rrf_k false (sc1, cm1) v 1).1
        ((v.get ⟨i, h⟩).chunk_id) 0 =
      2 * (1 / (st.retrieval_rrf_k + ((1 + i : Nat) : ℚ))) := by
    intro i h
    rw [rrfAccumulate_score]
    have hsc1q : dictGetD sc1 ((v.get ⟨i, h⟩).chunk_id) 0 =
        rrfContribAux st.retrieval_rrf_k v 1 ((v.get ⟨i, h⟩).chunk_id) := by
      have h3 := rrfAccumulate_score st.retrieval_rrf_k true v 1 [] []
        ((v.get ⟨i, h⟩).chunk_id)
      rw [h1] at h3
      simpa [dictGetD] using h3
    rw [hsc1q, rrfContribAux_nodup st.retrieval_rrf_k v i 1 h hv]
    ring
  have hstrict : List.Pairwise
      (fun a b =>
        dictGetD (rrfAccumulate st.retrieval_rrf_k false (sc1, cm1) v 1).1 b 0 <
        dictGetD (rrfAccumulate st.retrieval_rrf_k false (sc1, cm1) v 1).1 a 0)
      (v.map (fun c => c.chunk_id)) := by
    rw [List.pairwise_iff_get]
    intro i j hij
    have hlen : (v.map (fun c => c.chunk_id)).length = v.length := by simp
    have hi : (i : Nat) < v.length := by rw [← hlen]; exact i.2
    have hj : (j : Nat) < v.length := by rw [← hlen]; exact j.2
    have hgi : (v.map (fun c => c.chunk_id)).get i =
        (v.get ⟨(i : Nat), hi⟩).chunk_id := by
      simp [List.get_eq_getElem, List.getElem_map]
    have hgj : (v.map (fun c => c.chunk_id)).get j =
        (v.get ⟨(j : Nat), hj⟩).chunk_id := by
      simp [List.get_eq_getElem, List.getElem_map]
    rw [hgi, hgj, hscore (i : Nat) hi, hscore (j : Nat) hj]
    have hpi : (0 : ℚ) < st.retrieval_rrf_k + ((1 + (i : Nat) : Nat) : ℚ) :=
      add_pos_of_nonneg_of_pos hk
        (by exact_mod_cast (by omega : 0 < 1 + (i : Nat)))
    have hcast : ((1 + (i : Nat) : Nat) : ℚ) < ((1 + (j : Nat) : Nat) : ℚ) := by
      exact_mod_cast (by omega : 1 + (i : Nat) < 1 + (j : Nat))
    apply mul_lt_mul_of_pos_left ?_ (by norm_num : (0 : ℚ) < 2)
    exact one_div_lt_one_div_of_lt hpi (by linarith)
  have hsorted_eq : sortDescBy
      (fun cid => dictGetD
        (rrfAccumulate st.retrieval_rrf_k false (sc1, cm1) v 1).1 cid 0)
      (v.map (fun c => c.chunk_id)) = v.map (fun c => c.chunk_id) :=
    sortDescBy_of_strict_desc _ _ hstrict
  rw [rrfFusion_unfold, h1]
  rw [show ((rrfAccumulate st.retrieval_rrf_k false (sc1, cm1) v 1).1.map
      (fun kv => kv.1)) = v.map (fun c => c.chunk_id) from hkeys2]
  rw [hsorted_eq]
  have htotal : ∀ x ∈ v.map (fun c => c.chunk_id),
      (mapFind (rrfAccumulate st.retrieval_rrf_k false (sc1, cm1) v 1).2 x).map
        (fun c => { c with score := dictGetD (rrfAccumulate st.retrieval_rrf_k false (sc1, cm1) v 1).1 x 0 }) =
      some (((mapFind (rrfAccumulate st.retrieval_rrf_k false (sc1, cm1) v 1).2 x).map
        (fun c => { c with score := dictGetD (rrfAccumulate st.retrieval_rrf_k false (sc1, cm1) v 1).1 x 0 })).getD
          { chunk_id := x }) := by
    intro x hx
    have hs : (mapFind (rrfAccumulate st.retrieval_rrf_k false (sc1, cm1) v 1).2 x).isSome := by
      rw [hcm2, hcm1]
      exact (mapFind_pairs_isSome v x).mpr hx
    obtain ⟨c0, hc0⟩ := Option.isSome_iff_exists.mp hs
    rw [hc0]
    rfl
  rw [filterMap_total _ _ _ htotal]
  apply List.ext_get
  · rw [List.length_map, List.length_map, rrfDoubled_length]
  · intro i h1i h2i
    have hi : i < v.length := by simpa using h1i
    have hgeti : ((v.map (fun c => c.chunk_id)).map
        (fun x => ((mapFind (rrfAccumulate st.retrieval_rrf_k false (sc1, cm1) v 1).2 x).map
          (fun c => { c with score := dictGetD (rrfAccumulate st.retrieval_rrf_k false (sc1, cm1) v 1).1 x 0 })).getD
            { chunk_id := x })).get ⟨i, h1i⟩ =
        ((mapFind (rrfAccumulate st.retrieval_rrf_k false (sc1, cm1) v 1).2
            ((v.get ⟨i, hi⟩).chunk_id)).map
          (fun c => { c with score := dictGetD (rrfAccumulate st.retrieval_rrf_k false (sc1, cm1) v 1).1 ((v.get ⟨i, hi⟩).chunk_id) 0 })).getD
            { chunk_id := (v.get ⟨i, hi⟩).chunk_id } := by
      simp [List.get_eq_getElem, List.getElem_map]
    rw [hgeti]
    have hfind : mapFind (rrfAccumulate st.retrieval_rrf_k false (sc1, cm1) v 1).2
        ((v.get ⟨i, hi⟩).chunk_id) = some (v.get ⟨i, hi⟩) := by
      rw [hcm2, hcm1]
      exact mapFind_pairs_nodup v i hi hv
    rw [hfind]
    have h2i' : i < (rrfDoubled st.retrieval_rrf_k v 1).length := h2i
    rw [rrfDoubled_get st.retrieval_rrf_k v i 1 hi h2i']
    rw [hscore i hi]
    rfl

/-! ### Specification-side description of the paragraph splitter -/

/-- Spec-side greedy line packing: walk the lines keeping a current group;
close the group before a line that would push its token count past the
target, and emit a single over-target line on its own. -/
def greedyLineGroups (ctk : String → Nat) (target : Nat) :
    List String → List String → List String
  | cur, [] => if cur = [] then [] else [String.intercalate "\n" cur]
  | cur, l :: ls =>
    if cur ≠ [] ∧ target < ctk (String.intercalate "\n" (cur ++ [l])) then
      String.intercalate "\n" cur :: greedyLineGroups ctk target [l] ls
    else if cur = [] ∧ target < ctk l then
      l :: greedyLineGroups ctk target [] ls
    else greedyLineGroups ctk target (cur ++ [l]) ls

/-- Joining a one-element list is the element itself. -/
theorem intercalate_singleton (sep x : String) :
    String.intercalate sep [x] = x := by
  simp [String.intercalate, String.intercalate.go]

/-- The imperative inner loop of _split_into_paragraphs equals the greedy
line packing appended to the paragraphs accumulated so far. -/
theorem lineSplitLoop_eq_greedy (ctk : String → Nat) (target : Nat) :
    ∀ (ls paragraphs group : List String),
    lineSplitLoop ctk target paragraphs group ls =
      paragraphs ++ greedyLineGroups ctk target group ls := by
  intro ls
  induction ls with
  | nil =>
    intro paragraphs group
    by_cases hg : group = [] <;> simp [lineSplitLoop, greedyLineGroups, hg]
  | cons l ls ih =>
    intro paragraphs group
    simp only [lineSplitLoop, greedyLineGroups]
    by_cases hg : group = []
    · subst hg
      simp only [List.nil_append, intercalate_singleton]
      by_cases hc : target < ctk l
      · simp [hc, ih]
      · simp [hc, ih]
    · by_cases hc : target < ctk (String.intercalate "\n" (group ++ [l]))
      · have hlen : 1 < (group ++ [l]).length := by
          cases group with
          | nil => exact absurd rfl hg
          | cons a as => simp
        have hdrop : (group ++ [l]).dropLast = group := by simp
        simp [hc, hg, hlen, hdrop, ih]
      · simp [hc, hg, ih]

/-! ## Claim theorems -/

/-- Claim C1: the accessible-document set was supposed to scope every
retrieval (null set means no filter, empty set forces an empty result,
otherwise membership in both stores), but hybrid_search declares only
query, doc_id, top_k and use_reranker — accessible_doc_ids is not among its
parameters, so the production call in tool_search_documents, which passes
the set through, is rejected with a TypeError instead of being filtered. -/
theorem hybrid_search_rejects_accessible_doc_ids :
    pyAcceptsKwargs hybridSearchParams toolSearchDocumentsCallKwargs = false
  ∧ hybridSearchParams.contains "accessible_doc_ids" = false := by decide

/-- Claim C2: both searches do apply the filter is_latest = true, but they
apply it unconditionally — hybrid_search has no version_mode parameter, so
there is no all_versions escape, and the production call in _run_retrieval
that passes version_mode is rejected with a TypeError. -/
theorem is_latest_filter_has_no_version_mode_escape :
    (∀ doc_id : Option String,
      MatchCondition.fieldBool "is_latest" true ∈ vectorMustConditions doc_id ∧
      (bm25FilterClauses doc_id).head? =
        some (MatchCondition.fieldBool "is_latest" true))
  ∧ hybridSearchParams.contains "version_mode" = false
  ∧ pyAcceptsKwargs hybridSearchParams runRetrievalCallKwargs = false := by
  refine ⟨fun doc_id => ?_, by decide, by decide⟩
  cases doc_id <;> simp [vectorMustConditions, bm25FilterClauses]

/-- Claim C3: the chunker emits dense indices 0, 1, ..., but the summary
stage appends section-summary and doc-summary chunks built without a
chunk_index, which therefore all carry the pydantic default 0: on a
two-section document the stored index sequence is 0,1,0,0,0 rather than
0,1,2,3,4. -/
theorem summary_chunks_break_dense_indices :
    (pipelineChunks String.length (fun s _ => s) defaultSettings
        (fun _ sp _ => ("摘要" ++ sp, [])) (fun _ _ => ("全文摘要", [], none))
        (fun _ _ _ _ => "")
        { title := "文档",
          sections := [{ title := "A", level := 1, content := "hello",
                         page_numbers := [1] },
                       { title := "B", level := 1, content := "world",
                         page_numbers := [2] }] }
        "doc-1").map (fun c => c.chunk_index) = [0, 1, 0, 0, 0]
  ∧ [0, 1, 0, 0, 0] ≠ List.range 5 := by decide

/-- Claim C7 counterexample: when the semantic-diff LLM call fails, the
persisted change summary is the failure message, not the empty string the
claim demands. -/
theorem diff_llm_failure_summary_not_empty :
    (computeAndStoreDiff "diff-1" "old-1" "new-1" (0 : Nat) (0 : Nat)
      (.error "连接超时")).change_summary = "语义分析失败: 连接超时"
  ∧ (computeAndStoreDiff "diff-1" "old-1" "new-1" (0 : Nat) (0 : Nat)
      (.error "连接超时")).change_summary ≠ "" := by decide

/-- Claim C7 as amended: an LLM failure in the semantic layer does not
raise; the record is persisted with the layer-1 and layer-2 payloads intact,
an empty change-detail list, an empty impact analysis, and a change summary
carrying the failure message behind the prefix 语义分析失败. -/
theorem diff_llm_failure_layers_persisted (TD SD : Type) (td : TD) (sd : SD)
    (diff_id old_doc_id new_doc_id e : String) :
    computeAndStoreDiff diff_id old_doc_id new_doc_id td sd (.error e) =
      { diff_id := diff_id, old_version_id := old_doc_id,
        new_version_id := new_doc_id, text_diff_data := td,
        structural_changes := sd,
        change_summary := "语义分析失败: " ++ e,
        change_details := [], impact_analysis := "" } := rfl

/-- Claim C6 counterexample: a failing vector search propagates out of
hybrid_search even though the lexical search succeeded, so a single-backend
failure is not always absorbed. -/
theorem vector_search_failure_propagates :
    hybridSearch defaultSettings "查询" (.error "qdrant 连接失败")
      (.ok [{ id := "e1", content := "内容" }]) (fun _ _ => 0)
      (fun _ => .ok []) none true = .error "qdrant 连接失败" := rfl

/-- Claim C6 as amended: only a lexical-search failure is absorbed — it is
indistinguishable from the lexical store returning zero hits, the vector
results alone feed the RRF fusion, and the call still succeeds whenever the
vector search succeeds; a vector-search failure propagates. -/
theorem bm25_failure_degenerates_to_vector_only (st : TuningSettings)
    (query e : String) (vb : Except String (List QdrantPoint))
    (rs : String → String → ℚ) (cf : RetrievedChunk → Except String (List String))
    (tk : Option Nat) (ur : Bool) :
    hybridSearch st query vb (.error e) rs cf tk ur =
      hybridSearch st query vb (.ok []) rs cf tk ur
  ∧ ∀ pts, (hybridSearch st query (.ok pts) (.error e) rs cf tk ur).isOk = true := by
  constructor
  · cases vb <;> simp [hybridSearch, vectorSearchRun, bm25SearchRun]
  · intro pts
    simp [hybridSearch, vectorSearchRun, Except.isOk, Except.toBool]

/-- Claim C8 counterexample: with the default sizes (target 500, max 800)
and a tokenizer that counts 300 tokens per line, the sole double-newline
paragraph of the text weighs 600 tokens — above chunk_target_size — yet it
is returned whole, not split at its single-newline boundary. -/
theorem over_target_paragraph_kept_whole :
    splitIntoParagraphs (fun s => 300 * (splitLines s).length)
      defaultSettings "a\nb" = ["a\nb"]
  ∧ defaultSettings.chunk_target_size < 300 * (splitLines "a\nb").length
  ∧ 300 * (splitLines "a\nb").length ≤ defaultSettings.chunk_max_size := by
  have h : splitDoubleNewline "a\nb" = ["a\nb"] := by
    simp only [splitDoubleNewline]
    rw [splitDnlGo, splitDnlGo, splitDnlGo, splitDnlGo]
    decide
  refine ⟨?_, by decide, by decide⟩
  simp only [splitIntoParagraphs, h]
  decide

/-- Claim C8 as amended: double-newline parts are stripped and the empty
ones dropped; a part of MORE than chunk_max_size tokens (not
chunk_target_size, as the claim had it) is split at single-newline
boundaries into line groups greedily packed against chunk_target_size;
parts of at most chunk_max_size tokens are kept whole. -/
theorem split_into_paragraphs_threshold_is_max (ctk : String → Nat)
    (st : TuningSettings) (text : String) :
    splitIntoParagraphs ctk st text =
      (((splitDoubleNewline text).map pyStrip).filter
        (fun p => !(p == ""))).flatMap
        (fun p => if st.chunk_max_size < ctk p then
            greedyLineGroups ctk st.chunk_target_size [] (splitLines p)
          else [p]) := by
  unfold splitIntoParagraphs
  have main : ∀ (parts acc : List String),
      parts.foldl (fun paragraphs rawPart =>
        let part := pyStrip rawPart
        if part = "" then paragraphs
        else if st.chunk_max_size < ctk part then
          lineSplitLoop ctk st.chunk_target_size paragraphs [] (splitLines part)
        else paragraphs ++ [part]) acc =
      acc ++ ((parts.map pyStrip).filter (fun p => !(p == ""))).flatMap
        (fun p => if st.chunk_max_size < ctk p then
            greedyLineGroups ctk st.chunk_target_size [] (splitLines p)
          else [p]) := by
    intro parts
    induction parts with
    | nil => simp
    | cons p ps ih =>
      intro acc
      simp only [List.foldl_cons, List.map_cons, List.filter_cons]
      rw [ih]
      by_cases h0 : pyStrip p = ""
      · simp [h0]
      · by_cases h1 : st.chunk_max_size < ctk (pyStrip p)
        · simp [h0, h1, lineSplitLoop_eq_greedy, List.append_assoc]
        · simp [h0, h1, List.append_assoc]
  exact main _ []

/-- Claim C10: when the LLM omits the route field, res.get fills in the
valid default simple_rag, so the documented derivation from query_type never
runs — a complex_analysis question without an explicit route lands on
simple_rag instead of agent.  The derivation does fire for an invalid
supplied route, and a failed LLM call falls back to simple_rag with the
original question as the sole search query, as the claim states. -/
theorem route_derivation_skipped_when_route_absent :
    (routeQuery (.ok { query_type := .val "complex_analysis",
                       needs_multi_doc := .val true,
                       search_queries := .val ["检索词"],
                       estimated_scope := .val "broad",
                       route := .absent }) "这两个版本有什么重大变化?" []).route
      = "simple_rag"
  ∧ (routeQuery (.ok { query_type := .val "complex_analysis",
                       needs_multi_doc := .val true,
                       search_queries := .val ["检索词"],
                       estimated_scope := .val "broad",
                       route := .val "无效路由" }) "这两个版本有什么重大变化?" []).route
      = "agent"
  ∧ routeQuery (.error "LLM 超时") "这两个版本有什么重大变化?" [] =
      { query_type := "factual",
        search_queries := ["这两个版本有什么重大变化?"],
        metadata_filters := [], needs_multi_doc := false,
        estimated_scope := "narrow", route := "simple_rag" } := by decide

/-- Claim C4: when some non-errored document already holds the uploaded
bytes' hash, ingestion refuses with the duplicate error, the message splices
in the identifier (and title) of the first such document, the table keeps
exactly its document identifiers (so no new row is registered), and with a
fresh doc_id the table is completely untouched. -/
theorem duplicate_upload_refused (db : List DocRow)
    (doc_id title filename file_hash : String) (doc_type : Option String)
    (tags : List String)
    (hdup : ∃ r ∈ db, r.file_hash = file_hash ∧ r.processing_status ≠ "error") :
    ∃ existing msg dbE,
      checkFileHash db file_hash = some existing ∧
      existing ∈ db ∧ existing.file_hash = file_hash ∧
      existing.processing_status ≠ "error" ∧
      processDocumentDedup db doc_id title filename file_hash doc_type tags =
        .error (msg, dbE) ∧
      msg = "文件内容完全相同的文档已存在 (doc_id=" ++ existing.doc_id ++
            ", title=" ++ existing.title ++ ")" ∧
      dbE.map (fun r => r.doc_id) = db.map (fun r => r.doc_id) ∧
      ((∀ r ∈ db, r.doc_id ≠ doc_id) → dbE = db) := by
  have hsome : (checkFileHash db file_hash).isSome := by
    unfold checkFileHash
    rw [List.find?_isSome]
    obtain ⟨r, hr, hh, hs⟩ := hdup
    exact ⟨r, hr, by simp [hh, hs]⟩
  obtain ⟨existing, hfind⟩ := Option.isSome_iff_exists.mp hsome
  have hmem : existing ∈ db := List.mem_of_find?_eq_some hfind
  have hprop := List.find?_some hfind
  simp only [Bool.and_eq_true, beq_iff_eq, bne_iff_ne, ne_eq,
    decide_eq_true_eq] at hprop
  refine ⟨existing, duplicateMessage existing,
    updateStatusError db doc_id (duplicateMessage existing),
    hfind, hmem, hprop.1, hprop.2, ?_, rfl, ?_, ?_⟩
  · unfold processDocumentDedup
    rw [hfind]
  · unfold updateStatusError
    rw [List.map_map]
    exact List.map_congr_left
      (fun r _ => by by_cases h : r.doc_id = doc_id <;> simp [h])
  · intro hfresh
    unfold updateStatusError
    have : ∀ r ∈ db,
        (if r.doc_id = doc_id then
          { r with processing_status := "error",
                   processing_error := some (duplicateMessage existing) }
         else r) = r := by
      intro r hr
      rw [if_neg (hfresh r hr)]
    rw [List.map_congr_left this]
    exact List.map_id db

/-- Claim C9: under a nonnegative RRF constant (the default is 60), fusion
gives every chunk whose identifier occurs in either input list a score equal
to the sum of 1/(k + rank) over the lists containing it (1-based ranks), the
output is exactly the identifiers of both lists sorted descending by that
fused score, and fusing a (duplicate-free) list with itself returns the
chunks in their original order with doubled scores. -/
theorem rrf_fusion_spec (st : TuningSettings)
    (hk : 0 ≤ st.retrieval_rrf_k) (v b : List RetrievedChunk) :
    defaultSettings.retrieval_rrf_k = 60
  ∧ (∀ c ∈ rrfFusion st v b none,
      c.score = rrfContrib st.retrieval_rrf_k v c.chunk_id +
                rrfContrib st.retrieval_rrf_k b c.chunk_id)
  ∧ (∀ cid, cid ∈ (rrfFusion st v b none).map (fun c => c.chunk_id) ↔
      cid ∈ v.map (fun c => c.chunk_id) ∨ cid ∈ b.map (fun c => c.chunk_id))
  ∧ List.Pairwise (fun x y => y ≤ x)
      ((rrfFusion st v b none).map (fun c => c.score))
  ∧ ((v.map (fun c => c.chunk_id)).Nodup →
      rrfFusion st v v none = rrfDoubled st.retrieval_rrf_k v 1) :=
  ⟨rfl, rrfFusion_score_eq st v b, rrfFusion_mem_ids st v b,
   rrfFusion_sorted st v b, fun hv => rrfFusion_self st hk v hv⟩

/-- Witness for the RRF theorem at the default settings and two small
concrete result lists. -/
theorem rrf_fusion_spec_witness :
    (0 : ℚ) ≤ defaultSettings.retrieval_rrf_k
  ∧ (defaultSettings.retrieval_rrf_k = 60
  ∧ (∀ c ∈ rrfFusion defaultSettings
        [{ chunk_id := "c1" }, { chunk_id := "c2" }] [{ chunk_id := "c3" }] none,
      c.score = rrfContrib defaultSettings.retrieval_rrf_k
          [{ chunk_id := "c1" }, { chunk_id := "c2" }] c.chunk_id +
        rrfContrib defaultSettings.retrieval_rrf_k
          [{ chunk_id := "c3" }] c.chunk_id)
  ∧ (∀ cid, cid ∈ (rrfFusion defaultSettings
        [{ chunk_id := "c1" }, { chunk_id := "c2" }]
        [{ chunk_id := "c3" }] none).map (fun c => c.chunk_id) ↔
      cid ∈ ([{ chunk_id := "c1" }, { chunk_id := "c2" }] :
          List RetrievedChunk).map (fun c => c.chunk_id) ∨
      cid ∈ ([{ chunk_id := "c3" }] : List RetrievedChunk).map
        (fun c => c.chunk_id))
  ∧ List.Pairwise (fun x y => y ≤ x)
      ((rrfFusion defaultSettings [{ chunk_id := "c1" }, { chunk_id := "c2" }]
        [{ chunk_id := "c3" }] none).map (fun c => c.score))
  ∧ ((([{ chunk_id := "c1" }, { chunk_id := "c2" }] :
        List RetrievedChunk).map (fun c => c.chunk_id)).Nodup →
      rrfFusion defaultSettings
          [{ chunk_id := "c1" }, { chunk_id := "c2" }]
          [{ chunk_id := "c1" }, { chunk_id := "c2" }] none =
        rrfDoubled defaultSettings.retrieval_rrf_k
          [{ chunk_id := "c1" }, { chunk_id := "c2" }] 1)) :=
  ⟨by norm_num [defaultSettings],
   rrf_fusion_spec defaultSettings (by norm_num [defaultSettings])
     [{ chunk_id := "c1" }, { chunk_id := "c2" }] [{ chunk_id := "c3" }]⟩

/-- Witness for the duplicate-refusal theorem at a concrete table: one ready
document with hash h1, a second upload of the same bytes. -/
theorem duplicate_upload_refused_witness :
    (∃ r ∈ [{ doc_id := "D1", title := "旧文档", file_hash := "h1",
              processing_status := "ready" : DocRow}],
        r.file_hash = "h1" ∧ r.processing_status ≠ "error")
  ∧ ∃ existing msg dbE,
      checkFileHash [{ doc_id := "D1", title := "旧文档", file_hash := "h1",
                       processing_status := "ready" : DocRow}] "h1" = some existing ∧
      existing ∈ [{ doc_id := "D1", title := "旧文档", file_hash := "h1",
                    processing_status := "ready" : DocRow}] ∧
      existing.file_hash = "h1" ∧ existing.processing_status ≠ "error" ∧
      processDocumentDedup
        [{ doc_id := "D1", title := "旧文档", file_hash := "h1",
           processing_status := "ready" : DocRow}]
        "D2" "新文档" "b.pdf" "h1" none [] = .error (msg, dbE) ∧
      msg = "文件内容完全相同的文档已存在 (doc_id=" ++ existing.doc_id ++
            ", title=" ++ existing.title ++ ")" ∧
      dbE.map (fun r => r.doc_id) =
        ([{ doc_id := "D1", title := "旧文档", file_hash := "h1",
            processing_status := "ready" : DocRow}].map (fun r => r.doc_id)) ∧
      ((∀ r ∈ [{ doc_id := "D1", title := "旧文档", file_hash := "h1",
                 processing_status := "ready" : DocRow}], r.doc_id ≠ "D2") →
        dbE = [{ doc_id := "D1", title := "旧文档", file_hash := "h1",
                 processing_status := "ready" : DocRow}]) :=
  ⟨by decide, duplicate_upload_refused _ "D2" "新文档" "b.pdf" "h1" none []
    (by decide)⟩

/-- Claim C5: linking an uploaded document as the older version rewrites the
table pointwise — the uploaded row inherits the matched row's previous
parent, takes the detected version string (or the matched version
decremented, with v2.0 dropping to v1.0 and v1.0 staying put), and is marked
is_latest = false, superseded, with a supersession timestamp; the matched
row changes in its parent pointer only; every other row is untouched. -/
theorem link_as_older_version_frames (db : List DocRow) (upl ext : String)
    (dv : Option String) (now : Nat) (m : DocRow)
    (hne : upl ≠ ext) (hdv : dv ≠ some "")
    (hm : db.find? (fun r => r.doc_id == ext) = some m) :
    (linkAsOlderVersion db upl ext dv now = db.map (fun r =>
      if r.doc_id = upl then
        { r with parent_version_id := m.parent_version_id,
                 version_number := match dv with
                   | some s => s
                   | none => decrementVersion m.version_number,
                 is_latest := false, version_status := "superseded",
                 superseded_at := some now }
      else if r.doc_id = ext then { r with parent_version_id := some upl }
      else r))
  ∧ decrementVersion "v2.0" = "v1.0" ∧ decrementVersion "v1.0" = "v1.0" := by
  refine ⟨?_, by decide, by decide⟩
  unfold linkAsOlderVersion
  rw [hm, List.map_map]
  apply List.map_congr_left
  intro r _
  simp only [Function.comp_apply]
  have hne2 : ext ≠ upl := Ne.symm hne
  by_cases h1 : r.doc_id = upl
  · have h2 : ¬ r.doc_id = ext := by rw [h1]; exact hne
    cases dv with
    | none => simp [h1, h2, hne, hne2]
    | some s =>
      have hs : s ≠ "" := fun h => hdv (by rw [h])
      simp [h1, h2, hs, hne, hne2]
  · by_cases h2 : r.doc_id = ext
    · simp [h1, h2, hne, hne2]
    · simp [h1, h2]

/-- Witness for the reverse-version linking theorem: a two-row table where
document B (the upload) becomes the predecessor of document A, with no
LLM-detected version string, at timestamp 42. -/
theorem link_as_older_version_frames_witness :
    ("B" : String) ≠ "A"
  ∧ (none : Option String) ≠ some ""
  ∧ ([{ doc_id := "A", version_number := "v2.0",
        parent_version_id := some "P0" : DocRow },
      { doc_id := "B", version_number := "v1.0" : DocRow }].find?
        (fun r => r.doc_id == "A")) =
      some { doc_id := "A", version_number := "v2.0",
             parent_version_id := some "P0" : DocRow }
  ∧ ((linkAsOlderVersion
        [{ doc_id := "A", version_number := "v2.0",
           parent_version_id := some "P0" : DocRow },
         { doc_id := "B", version_number := "v1.0" : DocRow }]
        "B" "A" none 42 =
      [{ doc_id := "A", version_number := "v2.0",
         parent_version_id := some "P0" : DocRow },
       { doc_id := "B", version_number := "v1.0" : DocRow }].map (fun r =>
        if r.doc_id = "B" then
          { r with parent_version_id :=
                     ({ doc_id := "A", version_number := "v2.0",
                        parent_version_id := some "P0" : DocRow }).parent_version_id,
                   version_number := match (none : Option String) with
                     | some s => s
                     | none => decrementVersion
                         ({ doc_id := "A", version_number := "v2.0",
                            parent_version_id := some "P0" : DocRow }).version_number,
                   is_latest := false, version_status := "superseded",
                   superseded_at := some 42 }
        else if r.doc_id = "A" then { r with parent_version_id := some "B" }
        else r))
    ∧ decrementVersion "v2.0" = "v1.0" ∧ decrementVersion "v1.0" = "v1.0") :=
  ⟨by decide, by decide, by decide,
   link_as_older_version_frames _ "B" "A" none 42 _
     (by decide) (by decide) (by decide)⟩

end DocAI
